import Mathlib

/-!
# MAX-MIN ant colony optimisation for the CVRP (`MaxMinACO_CVRP_VA.c`)

A shallow embedding of the C program and theorems about it.

Modelling conventions:

* `float` and `double` values are rationals (`ℚ`). The cost of a tour is accumulated in
  binary32 as the code does it (`round32` after every conversion and every addition), and
  the initial cost of the best ant is `(float) INT_MAX`. The scores, the draw `r` and the
  pheromone are computed exactly; the theorems on `construct_solution` for which this
  matters assume that the scores lie in the range of the normal `float` numbers, or that
  `r` does not underflow, and `powf32` is a rounding `powf` for the instances on which
  a score underflows;
* `int` values that hold distances, demands and the capacity are integers (`ℤ`),
  array indices and counters are natural numbers;
* a C array is a function on its indices (`pheromone`, `graph`, `demand`, `unvisited`);
* `ant->tour` is the list of the entries written so far, `tour[0 .. tour_index)`; a write
  to `tour[tour_index]` with `tour_index >= MAX_NODES` falls outside the array, and
  `construct_solution` has no result (`none`) then; the capacity `MAX_ANTS` is not modelled;
* `powf` (from `math.h`) is a parameter of the model;
* the k-th value of `(float)rand() / RAND_MAX` is `rnd k`, and the number of calls of
  `rand()` made so far is threaded through the state;
* the `while` loop of `construct_solution` takes a bound on its number of iterations and
  returns `none` when the bound is exhausted;
* the text of the instance file is not modelled: `parse_tsplib_file` works on the list of
  the lines it recognises, each with the integers that `sscanf` and `fscanf` read for it.
-/

namespace MaxMinACO_CVRP

/-! ## Data model -/

/-- The struct `Ant`: the entries of `tour` written by the ant (the array has `MAX_NODES`
entries; `construct_solution` has no result when it writes beyond them) and its cost, a
binary32 number. -/
structure Ant where
  tour : List Nat
  cost : ℚ
deriving DecidableEq

/-- The struct `MaxMinACO`: configuration, pheromone matrix and problem instance. -/
structure MaxMinACO where
  num_ants : Nat
  num_iterations : Nat
  alpha : ℚ
  beta : ℚ
  rho : ℚ
  pheromone_min : ℚ
  pheromone_max : ℚ
  pheromone : Nat → Nat → ℚ
  graph : Nat → Nat → ℤ
  num_nodes : Nat
  vehicle_capacity : ℤ
  demand : Nat → ℤ

/-- The constant `INT_MAX` of `limits.h` for a 32-bit `int`. -/
def INT_MAX : ℤ := 2147483647

/-- The constant `MAX_NODES` (line 8): the number of entries of `tour`, `unvisited`,
`probabilities`, `demand` and of each dimension of `pheromone` and `graph`. -/
def MAX_NODES : Nat := 100

/-- The constant `FLT_MIN` of `float.h`: the smallest positive normal binary32 number,
`2 ^ (-126)`. -/
def FLT_MIN : ℚ := 1 / 2 ^ 126

/-- Write `v` to the matrix entry `m[i][j]`. -/
def set2 (m : Nat → Nat → ℚ) (i j : Nat) (v : ℚ) : Nat → Nat → ℚ :=
  fun a b => if a = i ∧ b = j then v else m a b

/-! ## Rounding to binary32 -/

/-- The spacing of the binary32 numbers around `x ≥ 0`: the smallest power of two `u`,
from `u` on, with `x < 2 ^ 24 * u`; the search starts at `2 ^ (-149)`, the spacing of the
subnormal numbers. -/
def ulp32 : Nat → ℚ → ℚ → ℚ
  | 0, _, u => u
  | fuel + 1, x, u => if x < 16777216 * u then u else ulp32 fuel x (2 * u)

/-- The integer nearest to `y`, the even one of the two when `y` lies half-way. -/
def round_even (y : ℚ) : ℤ :=
  if 2 * (y - (Rat.floor y : ℚ)) < 1 then Rat.floor y
  else if 1 < 2 * (y - (Rat.floor y : ℚ)) then Rat.floor y + 1
  else if Rat.floor y % 2 = 0 then Rat.floor y
  else Rat.floor y + 1

/-- The binary32 number nearest to `x` (round to nearest, ties to even), as a conversion to
`float` or a `float` operation yields it. Values of magnitude `2 ^ 128` and more, which
overflow, are not modelled. -/
def round32 (x : ℚ) : ℚ :=
  if 0 ≤ x then (round_even (x / ulp32 277 x (1 / 2 ^ 149)) : ℚ) * ulp32 277 x (1 / 2 ^ 149)
  else -((round_even (-x / ulp32 277 (-x) (1 / 2 ^ 149)) : ℚ) * ulp32 277 (-x) (1 / 2 ^ 149))

/-! ## `initialize_pheromone` -/

/-- The function `initialize_pheromone`: every entry `pheromone[i][j]` with
`i, j < num_nodes` is set to `pheromone_max`. -/
def initialize_pheromone (aco : MaxMinACO) : MaxMinACO :=
  { aco with
    pheromone := fun i j =>
      if i < aco.num_nodes ∧ j < aco.num_nodes then aco.pheromone_max else aco.pheromone i j }

/-! ## `construct_solution` -/

/-- The local variables of `construct_solution`, with the number of `rand()` calls so far. -/
structure Walk where
  unvisited : Nat → Bool
  num_unvisited : Nat
  tour : List Nat
  current_node : Nat
  cost : ℚ
  load : ℤ
  calls : Nat

/-- The indices `1 .. num_nodes - 1` that the `for (int j = 1; j < num_nodes; j++)` loops
run through, in order. -/
def customers (aco : MaxMinACO) : List Nat :=
  List.range' 1 (aco.num_nodes - 1)

/-- The state at the head of the `while` loop when it is first reached (lines 43-54);
`unvisited[j]` is set for the customers only. -/
def start_walk (aco : MaxMinACO) (calls : Nat) : Walk :=
  { unvisited := fun i => decide (1 ≤ i ∧ i < aco.num_nodes)
    num_unvisited := aco.num_nodes - 1
    tour := [0]
    current_node := 0
    cost := 0
    load := 0
    calls := calls }

/-- The value stored in `probabilities[j]` by the first `for` loop of the body (lines 63-70). -/
def probability (aco : MaxMinACO) (powf : ℚ → ℚ → ℚ) (w : Walk) (j : Nat) : ℚ :=
  if w.unvisited j = true ∧ w.load + aco.demand j ≤ aco.vehicle_capacity then
    powf (aco.pheromone w.current_node j) aco.alpha
      * powf (1 / (aco.graph w.current_node j : ℚ)) aco.beta
  else 0

/-- The value of `total_prob` after the first `for` loop of the body (lines 59-71). -/
def total_prob (aco : MaxMinACO) (powf : ℚ → ℚ → ℚ) (w : Walk) : ℚ :=
  (customers aco).foldl (fun t j => t + probability aco powf w j) 0

/-- The roulette-wheel scan (lines 77-85) over the remaining indices, from the running
`cum_prob`; the result is `next_node`, with `none` for the value `-1`. -/
def roulette (unvisited : Nat → Bool) (prob : Nat → ℚ) (r : ℚ) : List Nat → ℚ → Option Nat
  | [], _ => none
  | j :: js, cum_prob =>
    if unvisited j = true then
      if r ≤ cum_prob + prob j then some j
      else roulette unvisited prob r js (cum_prob + prob j)
    else roulette unvisited prob r js cum_prob

/-- The value of `next_node` at line 88 (`none` for `-1`). -/
def next_node (aco : MaxMinACO) (powf : ℚ → ℚ → ℚ) (rnd : Nat → ℚ) (w : Walk) : Option Nat :=
  if total_prob aco powf w > 0 then
    roulette w.unvisited (probability aco powf w) (rnd w.calls * total_prob aco powf w)
      (customers aco) 0
  else none

/-- The number of `rand()` calls made once the selection (lines 74-86) is done. -/
def calls_after (aco : MaxMinACO) (powf : ℚ → ℚ → ℚ) (w : Walk) : Nat :=
  if total_prob aco powf w > 0 then w.calls + 1 else w.calls

/-- One execution of the body of the `while` loop (lines 57-103). In `ant->cost += graph[..]`
the distance is converted to `float` and the sum is rounded to `float`. -/
def loop_body (aco : MaxMinACO) (powf : ℚ → ℚ → ℚ) (rnd : Nat → ℚ) (w : Walk) : Walk :=
  match next_node aco powf rnd w with
  | none =>
    { w with
      tour := w.tour ++ [0]
      cost := round32 (w.cost + round32 (aco.graph w.current_node 0 : ℚ))
      current_node := 0
      load := 0
      calls := calls_after aco powf w }
  | some j =>
    { unvisited := Function.update w.unvisited j false
      num_unvisited := w.num_unvisited - 1
      tour := w.tour ++ [j]
      cost := round32 (w.cost + round32 (aco.graph w.current_node j : ℚ))
      load := w.load + aco.demand j
      current_node := j
      calls := calls_after aco powf w }

/-- The `while (num_unvisited > 0)` loop, run for at most `fuel` iterations. The body writes
to `tour[tour_index]`; when `tour_index` has reached `MAX_NODES` the write falls outside the
array and the loop has no result. -/
def while_loop (aco : MaxMinACO) (powf : ℚ → ℚ → ℚ) (rnd : Nat → ℚ) : Nat → Walk → Option Walk
  | 0, w => if w.num_unvisited > 0 then none else some w
  | fuel + 1, w =>
    if w.num_unvisited > 0 then
      if w.tour.length < MAX_NODES then while_loop aco powf rnd fuel (loop_body aco powf rnd w)
      else none
    else some w

/-- The function `construct_solution`: the ant it writes and the number of `rand()` calls
made so far, or `none` when the loop has not ended within `fuel` iterations or a write to
`tour` (in the loop, or the final one of line 107) falls outside the array. -/
def construct_solution (aco : MaxMinACO) (powf : ℚ → ℚ → ℚ) (rnd : Nat → ℚ) (fuel : Nat)
    (calls : Nat) : Option (Ant × Nat) :=
  match while_loop aco powf rnd fuel (start_walk aco calls) with
  | none => none
  | some w =>
    if w.tour.length < MAX_NODES then
      some ({ tour := w.tour ++ [0]
              cost := round32 (w.cost + round32 (aco.graph w.current_node 0 : ℚ)) }, w.calls)
    else none

/-! ## `update_pheromones` -/

/-- The evaporation loops (lines 113-123): every entry with `i, j < num_nodes` is multiplied
by `1 - rho` and raised to `pheromone_min` when it falls below it. -/
def evaporate (aco : MaxMinACO) : Nat → Nat → ℚ :=
  fun i j =>
    if i < aco.num_nodes ∧ j < aco.num_nodes then
      if aco.pheromone i j * (1 - aco.rho) < aco.pheromone_min then aco.pheromone_min
      else aco.pheromone i j * (1 - aco.rho)
    else aco.pheromone i j

/-- The deposit of lines 131-135 on the entry `ph[a][b]`: `amount` is added, and the entry
is set to `pheromone_max` when it has come to exceed it. -/
def deposit (pheromone_max : ℚ) (ph : Nat → Nat → ℚ) (a b : Nat) (amount : ℚ) : Nat → Nat → ℚ :=
  if ph a b + amount > pheromone_max then set2 ph a b pheromone_max
  else set2 ph a b (ph a b + amount)

/-- The body of the inner deposit loop (lines 128-135) for the ant `ant` and the index `i`:
`1 / cost` is deposited on the edge from `tour[i]` to `tour[i + 1]`. -/
def deposit_edge (aco : MaxMinACO) (ant : Ant) (ph : Nat → Nat → ℚ) (i : Nat) : Nat → Nat → ℚ :=
  deposit aco.pheromone_max ph (ant.tour.getD i 0) (ant.tour.getD (i + 1) 0) (1 / ant.cost)

/-- The inner deposit loop `for (int i = 0; i < num_nodes - 1; i++)` for one ant. -/
def deposit_ant (aco : MaxMinACO) (ph : Nat → Nat → ℚ) (ant : Ant) : Nat → Nat → ℚ :=
  (List.range (aco.num_nodes - 1)).foldl (deposit_edge aco ant) ph

/-- The function `update_pheromones`: evaporation, then the deposit loop over
`ants[0 .. num_ants)`. -/
def update_pheromones (aco : MaxMinACO) (ants : List Ant) : MaxMinACO :=
  { aco with pheromone := (ants.take aco.num_ants).foldl (deposit_ant aco) (evaporate aco) }

/-! ## `max_min_aco` and `main` -/

/-- The state of `max_min_aco`: the colony, the ants written in the current iteration
(`ants[0 .. i)`; the array is written anew from index 0 in every iteration, and entries of
earlier iterations are never read), `best_ant` and the number of `rand()` calls. The field
`trace` is a ghost variable: every ant constructed so far, in order. -/
structure Colony where
  aco : MaxMinACO
  ants : List Ant
  best_ant : Ant
  calls : Nat
  trace : List Ant

/-- The body of the inner loop of `max_min_aco` (lines 184-187): one ant constructs a
solution, which replaces `best_ant` when it is strictly cheaper. -/
def ant_turn (powf : ℚ → ℚ → ℚ) (rnd : Nat → ℚ) (fuel : Nat) (s : Colony) : Option Colony :=
  match construct_solution s.aco powf rnd fuel s.calls with
  | none => none
  | some (ant, calls) =>
    some { s with
      ants := s.ants ++ [ant]
      best_ant := if ant.cost < s.best_ant.cost then ant else s.best_ant
      calls := calls
      trace := s.trace ++ [ant] }

/-- The inner loop of `max_min_aco`, `n` ants to go. -/
def ant_loop (powf : ℚ → ℚ → ℚ) (rnd : Nat → ℚ) (fuel : Nat) : Nat → Colony → Option Colony
  | 0, s => some s
  | n + 1, s =>
    match ant_turn powf rnd fuel s with
    | none => none
    | some s1 => ant_loop powf rnd fuel n s1

/-- The body of the outer loop of `max_min_aco` (lines 182-191): all ants construct a
solution, then the pheromone is updated. -/
def iteration (powf : ℚ → ℚ → ℚ) (rnd : Nat → ℚ) (fuel : Nat) (s : Colony) : Option Colony :=
  match ant_loop powf rnd fuel s.aco.num_ants { s with ants := [] } with
  | none => none
  | some s1 => some { s1 with aco := update_pheromones s1.aco s1.ants }

/-- The outer loop of `max_min_aco`, `k` iterations to go. -/
def iteration_loop (powf : ℚ → ℚ → ℚ) (rnd : Nat → ℚ) (fuel : Nat) : Nat → Colony → Option Colony
  | 0, s => some s
  | k + 1, s =>
    match iteration powf rnd fuel s with
    | none => none
    | some s1 => iteration_loop powf rnd fuel k s1

/-- The state of `max_min_aco` when the outer loop is first reached (lines 174-178);
the tour of `best_ant` is not initialised by the program. -/
def start_colony (aco : MaxMinACO) : Colony :=
  { aco := initialize_pheromone aco
    ants := []
    best_ant := { tour := [], cost := round32 (INT_MAX : ℚ) }
    calls := 0
    trace := [] }

/-- The state of `max_min_aco` at line 194, after the outer loop. -/
def run (aco : MaxMinACO) (powf : ℚ → ℚ → ℚ) (rnd : Nat → ℚ) (fuel : Nat) : Option Colony :=
  iteration_loop powf rnd fuel aco.num_iterations (start_colony aco)

/-- The entries printed after "Best tour: " (lines 196-198): `tour[0 .. num_nodes]`. -/
def printed_tour (aco : MaxMinACO) (best : Ant) : List Nat :=
  (List.range (aco.num_nodes + 1)).map (fun i => best.tour.getD i 0)

/-- The function `max_min_aco`: the node sequence and the cost that it prints. -/
def max_min_aco (aco : MaxMinACO) (powf : ℚ → ℚ → ℚ) (rnd : Nat → ℚ) (fuel : Nat) :
    Option (List Nat × ℚ) :=
  match run aco powf rnd fuel with
  | none => none
  | some s => some (printed_tour s.aco s.best_ant, s.best_ant.cost)

/-- The sum of `graph[a][b]` over the consecutive pairs `(a, b)` of a node sequence. -/
def tour_cost (graph : Nat → Nat → ℤ) : List Nat → ℚ
  | a :: b :: rest => (graph a b : ℚ) + tour_cost graph (b :: rest)
  | _ => 0

/-- The value of `cost` after the edges of a node sequence have been added to `c` one by
one as the code does it: each distance converted to `float`, each sum rounded to `float`. -/
def add_edges (graph : Nat → Nat → ℤ) : ℚ → List Nat → ℚ
  | c, a :: b :: rest => add_edges graph (round32 (c + round32 (graph a b : ℚ))) (b :: rest)
  | c, _ => c

/-- The cost of a node sequence in `float` arithmetic: its edges added to `0.0` from left to
right. -/
def float_cost (graph : Nat → Nat → ℤ) (tour : List Nat) : ℚ :=
  add_edges graph 0 tour

/-- The score `pow(pheromone[i][j], alpha) * pow(1.0 / graph[i][j], beta)` of line 65 for
the move from `i` to `j`. -/
def score (aco : MaxMinACO) (powf : ℚ → ℚ → ℚ) (i j : Nat) : ℚ :=
  powf (aco.pheromone i j) aco.alpha * powf (1 / (aco.graph i j : ℚ)) aco.beta

/-- The maximal depot-free stretches of a node sequence, `cur` being the stretch under way. -/
def split_routes : List Nat → List Nat → List (List Nat)
  | [], cur => [cur]
  | x :: xs, cur => if x = 0 then cur :: split_routes xs [] else split_routes xs (cur ++ [x])

/-- The summed demand of the customers of a route. -/
def route_demand (aco : MaxMinACO) (route : List Nat) : ℤ :=
  (route.map aco.demand).sum

/-- The number of times the edge from `a` to `b` occurs among the consecutive pairs of a
node sequence. -/
def edge_count (tour : List Nat) (a b : Nat) : Nat :=
  ((tour.zip tour.tail).filter (fun e => decide (e.1 = a ∧ e.2 = b))).length

/-- The entry `pheromone[a][b]` after `update_pheromones` as the specification describes it:
the evaporated entry plus `1 / cost` for every occurrence of the edge in the complete tour of
every ant, cut down to `pheromone_max`. -/
def deposit_formula (aco : MaxMinACO) (ants : List Ant) (a b : Nat) : ℚ :=
  min aco.pheromone_max
    (max aco.pheromone_min ((1 - aco.rho) * aco.pheromone a b)
      + (ants.map (fun ant => (edge_count ant.tour a b : ℚ) / ant.cost)).sum)

/-- The entries with `i, j < num_nodes` of a pheromone matrix lie between `pheromone_min`
and `pheromone_max`. -/
def InBounds (aco : MaxMinACO) (ph : Nat → Nat → ℚ) : Prop :=
  ∀ i j, i < aco.num_nodes → j < aco.num_nodes →
    aco.pheromone_min ≤ ph i j ∧ ph i j ≤ aco.pheromone_max

/-! ## Invariants of the `while` loop of `construct_solution` -/

/-- The cost invariant of the `while` loop: `cost` is the `float` cost of the node sequence
written so far, and `current_node` is its last entry. -/
def CostInv (aco : MaxMinACO) (w : Walk) : Prop :=
  w.cost = float_cost aco.graph w.tour ∧ w.tour.getLast? = some w.current_node

/-- The visiting invariant of the `while` loop: `unvisited` is set for customers only,
`num_unvisited` counts the customers for which it is set, the node sequence starts with the
depot and holds every customer once when it is visited and not at all otherwise, and the
current node is the depot or a visited customer. -/
def VisitInv (aco : MaxMinACO) (w : Walk) : Prop :=
  (∀ j, w.unvisited j = true → j ∈ customers aco) ∧
  w.num_unvisited = ((customers aco).filter (fun j => w.unvisited j)).length ∧
  w.tour.head? = some 0 ∧
  (∀ j, j ∈ customers aco → w.tour.count j = if w.unvisited j = true then 0 else 1) ∧
  w.unvisited w.current_node = false ∧
  (w.current_node = 0 ∨ w.current_node ∈ customers aco)

/-- The assumptions on an instance under which every customer can be served: the score of
a move between distinct nodes is positive, no customer demands more than the capacity,
distances between distinct nodes and pheromone entries are positive. -/
def Servable (aco : MaxMinACO) (powf : ℚ → ℚ → ℚ) : Prop :=
  (∀ i j, i < aco.num_nodes → j < aco.num_nodes → i ≠ j → 0 < score aco powf i j) ∧
  (∀ j, 1 ≤ j → j < aco.num_nodes → aco.demand j ≤ aco.vehicle_capacity) ∧
  (∀ i j, i < aco.num_nodes → j < aco.num_nodes → i ≠ j → 0 < aco.graph i j) ∧
  (∀ i j, i < aco.num_nodes → j < aco.num_nodes → 0 < aco.pheromone i j)

/-- The bound on the remaining iterations of the `while` loop: two for every unvisited
customer, and one more when the vehicle is loaded. -/
def remaining (w : Walk) : Nat :=
  2 * w.num_unvisited + (if w.load = 0 then 0 else 1)

/-- The invariant of `best_ant` in `max_min_aco`: either it is still the initial value and no
ant constructed so far costs less than `(float) INT_MAX`, or it is an ant of the trace,
strictly cheaper than every ant constructed before it and at most as expensive as every ant
constructed after it. -/
def BestInv (s : Colony) : Prop :=
  (s.best_ant = { tour := [], cost := round32 (INT_MAX : ℚ) } ∧
    ∀ a ∈ s.trace, round32 (INT_MAX : ℚ) ≤ a.cost) ∨
  (∃ pre post, s.trace = pre ++ s.best_ant :: post ∧
    (∀ a ∈ pre, s.best_ant.cost < a.cost) ∧ (∀ a ∈ post, s.best_ant.cost ≤ a.cost))

/-- The invariant of the `while` loop on an instance in which no two customers fit into one
route: a loaded vehicle can take no further customer, and the entries written so far and
the iterations still to come make up a tour of `2 * num_nodes - 1` entries or of one entry
less. -/
def CrowdInv (aco : MaxMinACO) (w : Walk) : Prop :=
  VisitInv aco w ∧
  (w.load ≠ 0 → ∀ k, w.unvisited k = true → aco.vehicle_capacity < w.load + aco.demand k) ∧
  2 * aco.num_nodes ≤ w.tour.length + remaining w + 1

/-- The number of routes of a complete tour: one less than the number of its depot
entries. -/
def num_routes (tour : List Nat) : Nat :=
  tour.count 0 - 1

/-- The invariant of the `while` loop on an instance whose capacity covers all demands: the
visiting invariant holds, the load and the demands of the unvisited customers together fit
the capacity, and the node sequence holds the depot once and, with the unvisited customers,
as many entries as there are nodes. -/
def SingleInv (aco : MaxMinACO) (w : Walk) : Prop :=
  VisitInv aco w ∧
  w.load + (((customers aco).filter (fun j => w.unvisited j)).map aco.demand).sum
    ≤ aco.vehicle_capacity ∧
  w.tour.count 0 = 1 ∧
  w.tour.length + w.num_unvisited = aco.num_nodes

/-- The invariant of the `while` loop that bounds the depot entries: the visiting invariant
holds, the current node is the last entry of the node sequence, the load is 0 at the depot,
no two adjacent entries are both the depot, the entries are the depot entries and the
visited customers, the depot entries are at most one more than the visited customers (one
less when the current node is a customer), and the current node is a customer once all
customers are visited. -/
def RouteInv (aco : MaxMinACO) (w : Walk) : Prop :=
  VisitInv aco w ∧
  w.tour.getLast? = some w.current_node ∧
  (w.current_node = 0 → w.load = 0) ∧
  List.Chain' (fun a b => ¬ (a = 0 ∧ b = 0)) w.tour ∧
  w.tour.length + w.num_unvisited = w.tour.count 0 + (aco.num_nodes - 1) ∧
  w.tour.count 0 + w.num_unvisited + (if w.current_node = 0 then 0 else 1) ≤ aco.num_nodes ∧
  (w.num_unvisited = 0 → w.current_node ≠ 0)

/-- The exact power function on integral exponents, as an instance of `powf`. -/
def powf_int (x y : ℚ) : ℚ := x ^ y.num

/-- A `powf` in `float` arithmetic for integral exponents: the base is converted to `float`,
and the exact power of the result is rounded to `float`, so that small powers underflow
to 0. -/
def powf32 (x y : ℚ) : ℚ := round32 (round32 x ^ y.num)

/-- A four-node instance with the configuration set by `main` and the pheromone as
`initialize_pheromone` leaves it: unit distances, demands 0, 4, 2, 2 and capacity 5. -/
def overload_instance : MaxMinACO :=
  { num_ants := 10, num_iterations := 100, alpha := 1, beta := 5, rho := 1 / 2
    pheromone_min := 1 / 10, pheromone_max := 10
    pheromone := fun _ _ => 10
    graph := fun i j => if i = j then 0 else 1
    num_nodes := 4
    vehicle_capacity := 5
    demand := fun j => if j = 1 then 4 else if j = 2 then 2 else if j = 3 then 2 else 0 }

/-- The draws 1/2, 0, 0, 0, ... -/
def overload_draws : Nat → ℚ := fun k => if k = 0 then 1 / 2 else 0

/-- The four-node scenario of the specification with the configuration set by `main`. -/
def scenario : MaxMinACO :=
  { num_ants := 10, num_iterations := 100, alpha := 1, beta := 5, rho := 1 / 2
    pheromone_min := 1 / 10, pheromone_max := 10
    pheromone := fun _ _ => 10
    graph := fun i j =>
      if (i = 0 ∧ j = 1) ∨ (i = 1 ∧ j = 0) then 2
      else if (i = 0 ∧ j = 2) ∨ (i = 2 ∧ j = 0) then 4
      else if (i = 0 ∧ j = 3) ∨ (i = 3 ∧ j = 0) then 5
      else if (i = 1 ∧ j = 2) ∨ (i = 2 ∧ j = 1) then 3
      else if (i = 1 ∧ j = 3) ∨ (i = 3 ∧ j = 1) then 6
      else if (i = 2 ∧ j = 3) ∨ (i = 3 ∧ j = 2) then 2
      else 0
    num_nodes := 4
    vehicle_capacity := 9
    demand := fun j => if 1 ≤ j ∧ j ≤ 3 then 3 else 0 }

/-- The constant draws 1/2, 1/2, ... -/
def half_draws : Nat → ℚ := fun _ => 1 / 2

/-- A two-node instance whose only customer is at distance `INT_MAX` from the depot. -/
def far_instance : MaxMinACO :=
  { num_ants := 1, num_iterations := 1, alpha := 1, beta := 5, rho := 1 / 2
    pheromone_min := 1 / 10, pheromone_max := 10
    pheromone := fun _ _ => 10
    graph := fun i j => if i = j then 0 else 2147483647
    num_nodes := 2
    vehicle_capacity := 5
    demand := fun j => if j = 1 then 1 else 0 }

/-- The scenario with a single ant and a single iteration. -/
def small_scenario : MaxMinACO :=
  { scenario with num_ants := 1, num_iterations := 1 }

/-- The state of `max_min_aco` on `small_scenario` after its single ant has constructed the
tour 0 1 2 3 0 and the pheromone has been updated. -/
def small_scenario_end : Colony :=
  { aco := update_pheromones (initialize_pheromone small_scenario) [⟨[0, 1, 2, 3, 0], 12⟩]
    ants := [⟨[0, 1, 2, 3, 0], 12⟩]
    best_ant := ⟨[0, 1, 2, 3, 0], 12⟩
    calls := 3
    trace := [⟨[0, 1, 2, 3, 0], 12⟩] }

/-- The state of `max_min_aco` on `small_scenario` after its single ant has constructed the
tour 0 1 2 3 0, before the pheromone is updated. -/
def small_scenario_mid : Colony :=
  { aco := initialize_pheromone small_scenario
    ants := [⟨[0, 1, 2, 3, 0], 12⟩]
    best_ant := ⟨[0, 1, 2, 3, 0], 12⟩
    calls := 3
    trace := [⟨[0, 1, 2, 3, 0], 12⟩] }

/-- A three-node instance on which every tour has two routes: demands 0, 3, 3 and
capacity 5. -/
def two_route_instance : MaxMinACO :=
  { num_ants := 1, num_iterations := 1, alpha := 1, beta := 5, rho := 1 / 2
    pheromone_min := 1 / 10, pheromone_max := 10
    pheromone := fun _ _ => 10
    graph := fun i j => if i = j then 0 else 1
    num_nodes := 3
    vehicle_capacity := 5
    demand := fun j => if j = 1 then 3 else if j = 2 then 3 else 0 }

/-- A three-node instance with the configuration set by `main`, whose customer 1 demands 10
with a capacity of 5, while customer 2 demands 1. -/
def oversize_instance : MaxMinACO :=
  { num_ants := 10, num_iterations := 100, alpha := 1, beta := 5, rho := 1 / 2
    pheromone_min := 1 / 10, pheromone_max := 10
    pheromone := fun _ _ => 10
    graph := fun i j => if i = j then 0 else 1
    num_nodes := 3
    vehicle_capacity := 5
    demand := fun j => if j = 1 then 10 else if j = 2 then 1 else 0 }

/-- The constant draws 0, 0, ... -/
def zero_draws : Nat → ℚ := fun _ => 0

/-- A two-node instance whose only customer is at distance 16777217 from the depot, a
distance that is not a binary32 number. -/
def coarse_instance : MaxMinACO :=
  { num_ants := 1
    num_iterations := 1
    alpha := 1
    beta := 5
    rho := 1 / 2
    pheromone_min := 1 / 10
    pheromone_max := 10
    pheromone := fun _ _ => 10
    graph := fun i j => if i = j then 0 else 16777217
    num_nodes := 2
    vehicle_capacity := 5
    demand := fun j => if j = 1 then 1 else 0 }

/-- A four-node instance with all distances between distinct nodes 540000000, unit demands
and capacity 5, in the configuration of `main` with one ant and one iteration: every tour
costs 2160000000, more than `(float) INT_MAX`, and the scores do not underflow. -/
def heavy_instance : MaxMinACO :=
  { num_ants := 1
    num_iterations := 1
    alpha := 1
    beta := 5
    rho := 1 / 2
    pheromone_min := 1 / 10
    pheromone_max := 10
    pheromone := fun _ _ => 10
    graph := fun i j => if i = j then 0 else 540000000
    num_nodes := 4
    vehicle_capacity := 5
    demand := fun j => if 1 ≤ j ∧ j ≤ 3 then 1 else 0 }

/-- The instance of `n` nodes with unit distances, unit demands and capacity 1: every
customer has a route of its own, so that a tour has `2 * n - 1` entries. -/
def crowded_instance (n : Nat) : MaxMinACO :=
  { num_ants := 1
    num_iterations := 1
    alpha := 1
    beta := 5
    rho := 1 / 2
    pheromone_min := 1 / 10
    pheromone_max := 10
    pheromone := fun _ _ => 10
    graph := fun i j => if i = j then 0 else 1
    num_nodes := n
    vehicle_capacity := 1
    demand := fun j => if j = 0 then 0 else 1 }

/-- The instance of `n` nodes with unit distances, unit demands and a capacity of `n`, which
covers all demands. -/
def roomy_instance (n : Nat) : MaxMinACO :=
  { num_ants := 1
    num_iterations := 1
    alpha := 1
    beta := 5
    rho := 1 / 2
    pheromone_min := 1 / 10
    pheromone_max := 10
    pheromone := fun _ _ => 10
    graph := fun i j => if i = j then 0 else 1
    num_nodes := n
    vehicle_capacity := n
    demand := fun j => if j = 0 then 0 else 1 }


/-! ## Properties of the rounding -/

theorem ulp32_small (x : ℚ) (hx : x < 16777216) :
    ∀ (fuel m : Nat), m ≤ fuel → ∃ k, k ≤ m ∧ ulp32 fuel x (1 / 2 ^ m) = 1 / 2 ^ k
  | 0, m, h => ⟨m, le_refl _, by
      have : m = 0 := by omega
      subst this
      rfl⟩
  | fuel + 1, m, h => by
    unfold ulp32
    by_cases hc : x < 16777216 * (1 / 2 ^ m)
    · rw [if_pos hc]
      exact ⟨m, le_refl _, rfl⟩
    · rw [if_neg hc]
      cases m with
      | zero =>
        exfalso
        apply hc
        simpa using hx
      | succ m1 =>
        obtain ⟨k, hk, he⟩ := ulp32_small x hx fuel m1 (by omega)
        refine ⟨k, by omega, ?_⟩
        have h2 : (2 : ℚ) * (1 / 2 ^ (m1 + 1)) = 1 / 2 ^ m1 := by
          rw [pow_succ]
          field_simp
          ring
        rw [h2]
        exact he

theorem round_even_int (n : ℤ) : round_even (n : ℚ) = n := by
  unfold round_even
  have hf : Rat.floor (n : ℚ) = n := by simp [Rat.floor_def']
  rw [hf]
  simp

/-- A non-negative integer below `2 ^ 24` is a binary32 number. -/
theorem round32_int (z : ℤ) (h0 : 0 ≤ z) (h1 : z < 16777216) : round32 (z : ℚ) = z := by
  have hz0 : (0 : ℚ) ≤ (z : ℚ) := by exact_mod_cast h0
  have hz1 : (z : ℚ) < 16777216 := by exact_mod_cast h1
  obtain ⟨k, -, hk⟩ := ulp32_small (z : ℚ) hz1 277 149 (by norm_num)
  unfold round32
  rw [if_pos hz0, hk]
  have : (z : ℚ) / (1 / 2 ^ k) = ((z * 2 ^ k : ℤ) : ℚ) := by
    push_cast
    field_simp
  rw [this, round_even_int]
  push_cast
  field_simp

/-- The conversion `(float) INT_MAX` rounds up to `2 ^ 31`. -/
theorem round32_INT_MAX : round32 (INT_MAX : ℚ) = 2147483648 := by decide!

/-! ## The cost of a tour -/

theorem tour_cost_snoc (graph : Nat → Nat → ℤ) (x : Nat) :
    ∀ (t : List Nat) (c : Nat), t.getLast? = some c →
      tour_cost graph (t ++ [x]) = tour_cost graph t + (graph c x : ℚ)
  | [], c, h => by simp at h
  | [a], c, h => by
    simp at h
    subst h
    simp [tour_cost]
  | a :: b :: rest, c, h => by
    have h1 : (b :: rest).getLast? = some c := by
      rw [List.getLast?_cons_cons] at h
      exact h
    have ih := tour_cost_snoc graph x (b :: rest) c h1
    simp only [List.cons_append] at ih ⊢
    simp only [tour_cost]
    rw [ih]
    ring

theorem add_edges_snoc (graph : Nat → Nat → ℤ) (x : Nat) :
    ∀ (t : List Nat) (c : ℚ) (l : Nat), t.getLast? = some l →
      add_edges graph c (t ++ [x]) = round32 (add_edges graph c t + round32 (graph l x : ℚ))
  | [], c, l, h => by simp at h
  | [a], c, l, h => by
    simp at h
    subst h
    simp [add_edges]
  | a :: b :: rest, c, l, h => by
    have h1 : (b :: rest).getLast? = some l := by
      rw [List.getLast?_cons_cons] at h
      exact h
    have ih := add_edges_snoc graph x (b :: rest) (round32 (c + round32 (graph a b : ℚ))) l h1
    simp only [List.cons_append] at ih ⊢
    simp only [add_edges]
    exact ih

theorem float_cost_snoc (graph : Nat → Nat → ℤ) (x : Nat) (t : List Nat) (l : Nat)
    (h : t.getLast? = some l) :
    float_cost graph (t ++ [x]) = round32 (float_cost graph t + round32 (graph l x : ℚ)) :=
  add_edges_snoc graph x t 0 l h

theorem tour_cost_nonneg (graph : Nat → Nat → ℤ) :
    ∀ (t : List Nat), (∀ e ∈ t.zip t.tail, 0 ≤ graph e.1 e.2) → 0 ≤ tour_cost graph t
  | [], _ => by simp [tour_cost]
  | [a], _ => by simp [tour_cost]
  | a :: b :: rest, h => by
    simp only [tour_cost]
    have h1 : (0 : ℚ) ≤ (graph a b : ℚ) := by
      have := h (a, b) (by simp)
      exact_mod_cast this
    have h2 := tour_cost_nonneg graph (b :: rest) (fun e he => h e (by
      simp only [List.tail_cons, List.zip_cons_cons, List.mem_cons]
      exact Or.inr he))
    linarith

/-- Adding edges of non-negative length is exact as long as the sum stays below `2 ^ 24`. -/
theorem add_edges_exact (graph : Nat → Nat → ℤ) :
    ∀ (t : List Nat) (c : ℤ), (∀ e ∈ t.zip t.tail, 0 ≤ graph e.1 e.2) → 0 ≤ c →
      (c : ℚ) + tour_cost graph t < 16777216 →
      add_edges graph (c : ℚ) t = (c : ℚ) + tour_cost graph t
  | [], c, _, _, _ => by simp [add_edges, tour_cost]
  | [a], c, _, _, _ => by simp [add_edges, tour_cost]
  | a :: b :: rest, c, h, hc, hlt => by
    have hg : 0 ≤ graph a b := h (a, b) (by simp)
    have hrest : ∀ e ∈ (b :: rest).zip (b :: rest).tail, 0 ≤ graph e.1 e.2 := fun e he =>
      h e (by
        simp only [List.tail_cons, List.zip_cons_cons, List.mem_cons]
        exact Or.inr he)
    have h2 := tour_cost_nonneg graph (b :: rest) hrest
    simp only [tour_cost] at hlt
    have hgq : (0 : ℚ) ≤ (graph a b : ℚ) := by exact_mod_cast hg
    have hcq : (0 : ℚ) ≤ (c : ℚ) := by exact_mod_cast hc
    have hsum : ((c + graph a b : ℤ) : ℚ) < 16777216 := by
      push_cast
      linarith
    have hg1 : graph a b < 16777216 := by
      have : (graph a b : ℚ) < 16777216 := by linarith
      exact_mod_cast this
    simp only [add_edges, tour_cost]
    rw [round32_int (graph a b) hg hg1]
    have hcast : (c : ℚ) + (graph a b : ℚ) = ((c + graph a b : ℤ) : ℚ) := by push_cast; rfl
    rw [hcast, round32_int (c + graph a b) (by omega) (by exact_mod_cast hsum)]
    rw [add_edges_exact graph (b :: rest) (c + graph a b) hrest (by omega) (by
      push_cast
      linarith)]
    push_cast
    ring

theorem float_cost_exact (graph : Nat → Nat → ℤ) (t : List Nat)
    (h : ∀ e ∈ t.zip t.tail, 0 ≤ graph e.1 e.2) (hlt : tour_cost graph t < 16777216) :
    float_cost graph t = tour_cost graph t := by
  have := add_edges_exact graph t 0 h (le_refl _) (by simpa using hlt)
  simpa [float_cost] using this

theorem costInv_start (aco : MaxMinACO) (calls : Nat) : CostInv aco (start_walk aco calls) := by
  simp [CostInv, start_walk, float_cost, add_edges]

theorem costInv_loop_body (aco : MaxMinACO) (powf : ℚ → ℚ → ℚ) (rnd : Nat → ℚ) (w : Walk)
    (h : CostInv aco w) : CostInv aco (loop_body aco powf rnd w) := by
  obtain ⟨hc, hl⟩ := h
  unfold loop_body
  cases next_node aco powf rnd w with
  | none =>
    refine ⟨?_, by simp⟩
    simp only
    rw [float_cost_snoc aco.graph 0 w.tour w.current_node hl, hc]
  | some j =>
    refine ⟨?_, by simp⟩
    simp only
    rw [float_cost_snoc aco.graph j w.tour w.current_node hl, hc]

theorem costInv_while_loop (aco : MaxMinACO) (powf : ℚ → ℚ → ℚ) (rnd : Nat → ℚ) :
    ∀ (fuel : Nat) (w w1 : Walk), CostInv aco w → while_loop aco powf rnd fuel w = some w1 →
      CostInv aco w1
  | 0, w, w1, h, hw => by
    unfold while_loop at hw
    split at hw
    · simp at hw
    · simp at hw
      subst hw
      exact h
  | fuel + 1, w, w1, h, hw => by
    unfold while_loop at hw
    split at hw
    · split at hw
      · exact costInv_while_loop aco powf rnd fuel _ w1 (costInv_loop_body aco powf rnd w h) hw
      · simp at hw
    · simp at hw
      subst hw
      exact h

theorem construct_solution_some (aco : MaxMinACO) (powf : ℚ → ℚ → ℚ) (rnd : Nat → ℚ)
    (fuel calls : Nat) (ant : Ant) (calls1 : Nat)
    (h : construct_solution aco powf rnd fuel calls = some (ant, calls1)) :
    ∃ w, while_loop aco powf rnd fuel (start_walk aco calls) = some w ∧
      ant = { tour := w.tour ++ [0]
              cost := round32 (w.cost + round32 (aco.graph w.current_node 0 : ℚ)) } ∧
      calls1 = w.calls ∧ w.tour.length < MAX_NODES := by
  unfold construct_solution at h
  cases hw : while_loop aco powf rnd fuel (start_walk aco calls) with
  | none => simp [hw] at h
  | some w =>
    simp only [hw] at h
    split at h
    · rename_i hlen
      simp only [Option.some.injEq, Prod.mk.injEq] at h
      exact ⟨w, rfl, h.1.symm, h.2.symm, hlen⟩
    · simp at h

/-- The converse of `construct_solution_some`: a loop that ends within the buffer gives the
ant. -/
theorem construct_solution_of_loop (aco : MaxMinACO) (powf : ℚ → ℚ → ℚ) (rnd : Nat → ℚ)
    (fuel calls : Nat) (w : Walk)
    (hw : while_loop aco powf rnd fuel (start_walk aco calls) = some w)
    (hlen : w.tour.length < MAX_NODES) :
    construct_solution aco powf rnd fuel calls
      = some ({ tour := w.tour ++ [0]
                cost := round32 (w.cost + round32 (aco.graph w.current_node 0 : ℚ)) },
              w.calls) := by
  unfold construct_solution
  simp only [hw]
  rw [if_pos hlen]

/-- C3 as stated fails: with the only customer at distance 16777217 the tour 0 1 0 is
returned with the cost 33554432, the sum of its two distances being 33554434; the distance
is not a `float`, and `cost` is one. -/
theorem C3_cost_is_rounded :
    construct_solution coarse_instance powf32 half_draws 1 0
        = some ({ tour := [0, 1, 0], cost := 33554432 }, 1) ∧
      tour_cost coarse_instance.graph [0, 1, 0] = 33554434 := by
  constructor
  · decide!
  · norm_num [tour_cost, coarse_instance]

/-- C3, amended: whenever `construct_solution` returns, the tour lies within the `MAX_NODES`
entries of `tour`, and the cost stored in the ant is the `float` sum of `graph[a][b]` over
the consecutive pairs `(a, b)` of the complete tour, the returns to the depot included,
added from left to right with every distance and every sum rounded to `float`; it is the
exact sum when the distances along the tour are non-negative and the exact sum is below
`2 ^ 24`. -/
theorem C3_cost_is_float_cost (aco : MaxMinACO) (powf : ℚ → ℚ → ℚ) (rnd : Nat → ℚ)
    (fuel calls : Nat) (ant : Ant) (calls1 : Nat)
    (h : construct_solution aco powf rnd fuel calls = some (ant, calls1)) :
    ant.tour.length ≤ MAX_NODES ∧ ant.cost = float_cost aco.graph ant.tour ∧
      ((∀ e ∈ ant.tour.zip ant.tour.tail, 0 ≤ aco.graph e.1 e.2) →
        tour_cost aco.graph ant.tour < 16777216 → ant.cost = tour_cost aco.graph ant.tour) := by
  obtain ⟨w, hw, hant, -, hlen⟩ := construct_solution_some aco powf rnd fuel calls ant calls1 h
  obtain ⟨hc, hl⟩ := costInv_while_loop aco powf rnd fuel _ w (costInv_start aco calls) hw
  have hcost : ant.cost = float_cost aco.graph ant.tour := by
    subst hant
    simp only
    rw [float_cost_snoc aco.graph 0 w.tour w.current_node hl, hc]
  refine ⟨?_, hcost, ?_⟩
  · subst hant
    simp only [List.length_append, List.length_singleton]
    omega
  · intro hg hlt
    rw [hcost]
    exact float_cost_exact aco.graph ant.tour hg hlt

/-- Witness of C3 on the three-node instance whose tours have two routes: the cost 4 of the
tour 0 1 0 2 0 counts the intermediate and the final return to the depot. -/
theorem C3_cost_is_float_cost_witness :
    construct_solution two_route_instance powf_int half_draws 4 0
        = some ({ tour := [0, 1, 0, 2, 0], cost := 4 }, 2) ∧
      ([0, 1, 0, 2, 0] : List Nat).length ≤ MAX_NODES ∧
      (4 : ℚ) = float_cost two_route_instance.graph [0, 1, 0, 2, 0] ∧
      ((∀ e ∈ ([0, 1, 0, 2, 0] : List Nat).zip ([0, 1, 0, 2, 0] : List Nat).tail,
          0 ≤ two_route_instance.graph e.1 e.2) →
        tour_cost two_route_instance.graph [0, 1, 0, 2, 0] < 16777216 →
        (4 : ℚ) = tour_cost two_route_instance.graph [0, 1, 0, 2, 0]) :=
  ⟨by decide!, C3_cost_is_float_cost two_route_instance powf_int half_draws 4 0
    { tour := [0, 1, 0, 2, 0], cost := 4 } 2 (by decide!)⟩

/-! ## The selection step -/

theorem mem_customers (aco : MaxMinACO) (j : Nat) :
    j ∈ customers aco ↔ 1 ≤ j ∧ j < aco.num_nodes := by
  simp only [customers, List.mem_range'_1]
  omega

theorem nodup_customers (aco : MaxMinACO) : (customers aco).Nodup := by
  unfold customers
  exact List.nodup_range' 1 (aco.num_nodes - 1)

theorem foldl_add_eq_sum (f : Nat → ℚ) :
    ∀ (l : List Nat) (a : ℚ), l.foldl (fun t j => t + f j) a = a + (l.map f).sum
  | [], a => by simp
  | j :: js, a => by
    simp only [List.foldl_cons, List.map_cons, List.sum_cons]
    rw [foldl_add_eq_sum f js (a + f j)]
    ring

theorem total_prob_eq_sum (aco : MaxMinACO) (powf : ℚ → ℚ → ℚ) (w : Walk) :
    total_prob aco powf w = ((customers aco).map (probability aco powf w)).sum := by
  unfold total_prob
  rw [foldl_add_eq_sum]
  simp

theorem roulette_some (unvisited : Nat → Bool) (prob : Nat → ℚ) (r : ℚ) (j : Nat) :
    ∀ (js : List Nat) (cum : ℚ), roulette unvisited prob r js cum = some j →
      j ∈ js ∧ unvisited j = true
  | [], cum, h => by simp [roulette] at h
  | i :: js, cum, h => by
    unfold roulette at h
    by_cases hu : unvisited i = true
    · rw [if_pos hu] at h
      by_cases hr : r ≤ cum + prob i
      · rw [if_pos hr] at h
        simp only [Option.some.injEq] at h
        subst h
        exact ⟨List.mem_cons_self _ _, hu⟩
      · rw [if_neg hr] at h
        obtain ⟨h1, h2⟩ := roulette_some unvisited prob r j js _ h
        exact ⟨List.mem_cons_of_mem _ h1, h2⟩
    · rw [if_neg hu] at h
      obtain ⟨h1, h2⟩ := roulette_some unvisited prob r j js _ h
      exact ⟨List.mem_cons_of_mem _ h1, h2⟩

theorem sum_map_eq_zero (prob : Nat → ℚ) :
    ∀ (js : List Nat), (∀ j ∈ js, prob j = 0) → (js.map prob).sum = 0
  | [], _ => by simp
  | i :: js, h => by
    simp only [List.map_cons, List.sum_cons]
    rw [h i (List.mem_cons_self _ _),
      sum_map_eq_zero prob js (fun j hj => h j (List.mem_cons_of_mem _ hj))]
    ring

theorem roulette_none (unvisited : Nat → Bool) (prob : Nat → ℚ) (r : ℚ)
    (hzero : ∀ j, unvisited j = false → prob j = 0) :
    ∀ (js : List Nat) (cum : ℚ), roulette unvisited prob r js cum = none →
      (∀ j ∈ js, unvisited j = false) ∨ cum + (js.map prob).sum < r
  | [], cum, _ => Or.inl (by simp)
  | i :: js, cum, h => by
    unfold roulette at h
    by_cases hu : unvisited i = true
    · rw [if_pos hu] at h
      by_cases hr : r ≤ cum + prob i
      · rw [if_pos hr] at h
        simp at h
      · rw [if_neg hr] at h
        right
        simp only [List.map_cons, List.sum_cons]
        rcases roulette_none unvisited prob r hzero js _ h with hall | hlt
        · rw [sum_map_eq_zero prob js (fun j hj => hzero j (hall j hj))]
          linarith
        · linarith
    · rw [if_neg hu] at h
      have hu1 : unvisited i = false := by simpa using hu
      rcases roulette_none unvisited prob r hzero js _ h with hall | hlt
      · left
        intro j hj
        rcases List.mem_cons.1 hj with rfl | hj1
        · exact hu1
        · exact hall j hj1
      · right
        simp only [List.map_cons, List.sum_cons]
        rw [hzero i hu1]
        linarith

theorem probability_of_visited (aco : MaxMinACO) (powf : ℚ → ℚ → ℚ) (w : Walk) (j : Nat)
    (h : w.unvisited j = false) : probability aco powf w j = 0 := by
  simp [probability, h]

theorem next_node_some (aco : MaxMinACO) (powf : ℚ → ℚ → ℚ) (rnd : Nat → ℚ) (w : Walk) (j : Nat)
    (h : next_node aco powf rnd w = some j) : j ∈ customers aco ∧ w.unvisited j = true := by
  unfold next_node at h
  split at h
  · exact roulette_some _ _ _ j _ _ h
  · simp at h

theorem sum_map_nonneg (prob : Nat → ℚ) :
    ∀ (js : List Nat), (∀ j ∈ js, 0 ≤ prob j) → 0 ≤ (js.map prob).sum
  | [], _ => by simp
  | i :: js, h => by
    simp only [List.map_cons, List.sum_cons]
    have h1 := h i (List.mem_cons_self _ _)
    have h2 := sum_map_nonneg prob js (fun j hj => h j (List.mem_cons_of_mem _ hj))
    linarith

theorem sum_map_pos (prob : Nat → ℚ) (k : Nat) (hk : 0 < prob k) :
    ∀ (js : List Nat), (∀ j ∈ js, 0 ≤ prob j) → k ∈ js → 0 < (js.map prob).sum
  | [], _, hm => by simp at hm
  | i :: js, h, hm => by
    simp only [List.map_cons, List.sum_cons]
    have h1 := h i (List.mem_cons_self _ _)
    have h2 := sum_map_nonneg prob js (fun j hj => h j (List.mem_cons_of_mem _ hj))
    rcases List.mem_cons.1 hm with rfl | hm1
    · linarith
    · have h3 := sum_map_pos prob k hk js (fun j hj => h j (List.mem_cons_of_mem _ hj)) hm1
      linarith

/-! ## The visiting invariant -/

theorem probability_pos (aco : MaxMinACO) (powf : ℚ → ℚ → ℚ) (w : Walk) (j : Nat)
    (hs : Servable aco powf) (hi : VisitInv aco w) (hu : w.unvisited j = true)
    (hload : w.load + aco.demand j ≤ aco.vehicle_capacity) :
    0 < probability aco powf w j := by
  obtain ⟨hpos, -, -, -⟩ := hs
  obtain ⟨hcust, -, -, -, hcur, hcur2⟩ := hi
  have hj := (mem_customers aco j).1 (hcust j hu)
  have hne : w.current_node ≠ j := by
    intro he
    rw [he, hu] at hcur
    simp at hcur
  have hlt : w.current_node < aco.num_nodes := by
    rcases hcur2 with h0 | hc
    · omega
    · exact ((mem_customers aco _).1 hc).2
  unfold probability
  rw [if_pos ⟨hu, hload⟩]
  exact hpos _ _ hlt hj.2 hne

theorem probability_nonneg (aco : MaxMinACO) (powf : ℚ → ℚ → ℚ) (w : Walk) (j : Nat)
    (hs : Servable aco powf) (hi : VisitInv aco w) : 0 ≤ probability aco powf w j := by
  by_cases h : w.unvisited j = true ∧ w.load + aco.demand j ≤ aco.vehicle_capacity
  · exact le_of_lt (probability_pos aco powf w j hs hi h.1 h.2)
  · unfold probability
    rw [if_neg h]

theorem filter_update_of_not_mem (u : Nat → Bool) (j : Nat) :
    ∀ (l : List Nat), j ∉ l →
      l.filter (fun i => Function.update u j false i) = l.filter (fun i => u i)
  | [], _ => by simp
  | i :: l, h => by
    have hij : i ≠ j := fun e => h (e ▸ List.mem_cons_self _ _)
    have hl : j ∉ l := fun e => h (List.mem_cons_of_mem _ e)
    simp only [List.filter_cons, Function.update_noteq hij]
    rw [filter_update_of_not_mem u j l hl]

theorem filter_update_length (u : Nat → Bool) (j : Nat) (hu : u j = true) :
    ∀ (l : List Nat), l.Nodup → j ∈ l →
      (l.filter (fun i => Function.update u j false i)).length + 1
        = (l.filter (fun i => u i)).length
  | [], _, h => by simp at h
  | i :: l, hn, h => by
    obtain ⟨hnot, hn1⟩ := List.nodup_cons.1 hn
    by_cases hij : i = j
    · subst hij
      simp only [List.filter_cons, Function.update_same, hu]
      rw [filter_update_of_not_mem u i l hnot]
      simp
    · have hj : j ∈ l := by
        rcases List.mem_cons.1 h with e | e
        · exact absurd e.symm hij
        · exact e
      have ih := filter_update_length u j hu l hn1 hj
      simp only [List.filter_cons, Function.update_noteq hij]
      by_cases hui : u i = true
      · simp only [hui, if_true, List.length_cons]
        omega
      · simp only [hui]
        simpa using ih

theorem visitInv_start (aco : MaxMinACO) (calls : Nat) : VisitInv aco (start_walk aco calls) := by
  refine ⟨?_, ?_, rfl, ?_, ?_, Or.inl rfl⟩
  · intro j hj
    rw [mem_customers]
    simpa [start_walk] using hj
  · have h : (customers aco).filter (fun j => (start_walk aco calls).unvisited j)
        = customers aco := by
      rw [List.filter_eq_self]
      intro j hj
      have := (mem_customers aco j).1 hj
      simp [start_walk, this.1, this.2]
    rw [h]
    simp [customers, start_walk]
  · intro j hj
    have := (mem_customers aco j).1 hj
    have hne : j ≠ 0 := by omega
    simp [start_walk, this.1, this.2, hne]
  · simp [start_walk]

theorem visitInv_select (aco : MaxMinACO) (w : Walk) (j : Nat) (cost : ℚ) (load : ℤ) (calls : Nat)
    (hi : VisitInv aco w) (hj : j ∈ customers aco) (hu : w.unvisited j = true) :
    VisitInv aco
        { unvisited := Function.update w.unvisited j false
          num_unvisited := w.num_unvisited - 1
          tour := w.tour ++ [j]
          cost := cost
          load := load
          current_node := j
          calls := calls } ∧
      w.num_unvisited = (w.num_unvisited - 1) + 1 := by
  obtain ⟨hcust, hnum, hhead, hcount, hcur, hcur2⟩ := hi
  have hlen := filter_update_length w.unvisited j hu (customers aco) (nodup_customers aco) hj
  have hnum1 : w.num_unvisited = (w.num_unvisited - 1) + 1 := by omega
  refine ⟨⟨?_, ?_, ?_, ?_, ?_, Or.inr hj⟩, hnum1⟩
  · intro i hi
    by_cases hij : i = j
    · subst hij
      simp at hi
    · simp only [Function.update_noteq hij] at hi
      exact hcust i hi
  · simp only
    omega
  · cases ht : w.tour with
    | nil => simp [ht] at hhead
    | cons a t =>
      rw [ht] at hhead
      simpa using hhead
  · intro i hi
    simp only [List.count_append]
    by_cases hij : i = j
    · subst hij
      have := hcount i hi
      rw [if_pos hu] at this
      simp [this]
    · simp only [Function.update_noteq hij]
      rw [hcount i hi]
      have : List.count i [j] = 0 := by
        rw [List.count_eq_zero]
        simpa using hij
      rw [this]
      simp
  · simp

theorem visitInv_depot (aco : MaxMinACO) (w : Walk) (cost : ℚ) (calls : Nat)
    (hi : VisitInv aco w) :
    VisitInv aco { w with tour := w.tour ++ [0], cost := cost, current_node := 0, load := 0,
                          calls := calls } := by
  obtain ⟨hcust, hnum, hhead, hcount, hcur, hcur2⟩ := hi
  refine ⟨hcust, hnum, ?_, ?_, ?_, Or.inl rfl⟩
  · cases ht : w.tour with
    | nil => simp [ht] at hhead
    | cons a t =>
      rw [ht] at hhead
      simpa using hhead
  · intro i hi
    have h1 := (mem_customers aco i).1 hi
    have hne : i ≠ 0 := by omega
    simp only [List.count_append]
    rw [hcount i hi]
    have : List.count i [0] = 0 := by
      rw [List.count_eq_zero]
      simpa using hne
    rw [this]
    simp
  · simp only
    cases h0 : w.unvisited 0 with
    | false => rfl
    | true =>
      have := (mem_customers aco 0).1 (hcust 0 h0)
      omega

/-! ## Termination of the `while` loop -/

theorem next_node_of_total_pos (aco : MaxMinACO) (powf : ℚ → ℚ → ℚ) (rnd : Nat → ℚ) (w : Walk)
    (hpos : 0 < total_prob aco powf w) (hr : rnd w.calls ≤ 1) :
    ∃ j, next_node aco powf rnd w = some j := by
  cases hn : next_node aco powf rnd w with
  | some j => exact ⟨j, rfl⟩
  | none =>
    exfalso
    unfold next_node at hn
    rw [if_pos hpos] at hn
    have hle : rnd w.calls * total_prob aco powf w ≤ total_prob aco powf w := by
      nlinarith
    rcases roulette_none _ _ _ (probability_of_visited aco powf w) _ _ hn with hall | hlt
    · have h0 := sum_map_eq_zero (probability aco powf w) (customers aco)
        (fun j hj => probability_of_visited aco powf w j (hall j hj))
      rw [total_prob_eq_sum] at hpos
      linarith
    · rw [← total_prob_eq_sum] at hlt
      linarith

theorem total_prob_pos_of_empty (aco : MaxMinACO) (powf : ℚ → ℚ → ℚ) (w : Walk)
    (hs : Servable aco powf) (hi : VisitInv aco w) (hn : 0 < w.num_unvisited)
    (hload : w.load = 0) : 0 < total_prob aco powf w := by
  have hnum := hi.2.1
  have hne : (customers aco).filter (fun j => w.unvisited j) ≠ [] := by
    intro he
    rw [he] at hnum
    simp at hnum
    omega
  obtain ⟨j, hj⟩ := List.exists_mem_of_ne_nil _ hne
  obtain ⟨hjc, hju⟩ := List.mem_filter.1 hj
  have hjb := (mem_customers aco j).1 hjc
  have hfits : w.load + aco.demand j ≤ aco.vehicle_capacity := by
    have := hs.2.1 j hjb.1 hjb.2
    rw [hload]
    omega
  rw [total_prob_eq_sum]
  exact sum_map_pos _ j (probability_pos aco powf w j hs hi hju hfits) _
    (fun i _ => probability_nonneg aco powf w i hs hi) hjc

theorem loop_body_of_some (aco : MaxMinACO) (powf : ℚ → ℚ → ℚ) (rnd : Nat → ℚ) (w : Walk)
    (j : Nat) (h : next_node aco powf rnd w = some j) :
    loop_body aco powf rnd w =
      { unvisited := Function.update w.unvisited j false
        num_unvisited := w.num_unvisited - 1
        tour := w.tour ++ [j]
        cost := round32 (w.cost + round32 (aco.graph w.current_node j : ℚ))
        load := w.load + aco.demand j
        current_node := j
        calls := calls_after aco powf w } := by
  simp only [loop_body, h]

theorem loop_body_of_none (aco : MaxMinACO) (powf : ℚ → ℚ → ℚ) (rnd : Nat → ℚ) (w : Walk)
    (h : next_node aco powf rnd w = none) :
    loop_body aco powf rnd w =
      { w with
        tour := w.tour ++ [0]
        cost := round32 (w.cost + round32 (aco.graph w.current_node 0 : ℚ))
        current_node := 0
        load := 0
        calls := calls_after aco powf w } := by
  simp only [loop_body, h]

theorem visitInv_loop_body (aco : MaxMinACO) (powf : ℚ → ℚ → ℚ) (rnd : Nat → ℚ) (w : Walk)
    (hi : VisitInv aco w) : VisitInv aco (loop_body aco powf rnd w) := by
  cases hn : next_node aco powf rnd w with
  | none =>
    rw [loop_body_of_none aco powf rnd w hn]
    exact visitInv_depot aco w _ _ hi
  | some j =>
    rw [loop_body_of_some aco powf rnd w j hn]
    obtain ⟨hj, hu⟩ := next_node_some aco powf rnd w j hn
    exact (visitInv_select aco w j _ _ _ hi hj hu).1

theorem remaining_loop_body (aco : MaxMinACO) (powf : ℚ → ℚ → ℚ) (rnd : Nat → ℚ) (w : Walk)
    (hs : Servable aco powf) (hr : ∀ k, rnd k ≤ 1) (hi : VisitInv aco w)
    (hn : 0 < w.num_unvisited) :
    remaining (loop_body aco powf rnd w) < remaining w := by
  cases hnext : next_node aco powf rnd w with
  | none =>
    rw [loop_body_of_none aco powf rnd w hnext]
    have hload : w.load ≠ 0 := by
      intro h0
      obtain ⟨j, hj⟩ := next_node_of_total_pos aco powf rnd w
        (total_prob_pos_of_empty aco powf w hs hi hn h0) (hr _)
      rw [hj] at hnext
      simp at hnext
    simp [remaining, hload]
  | some j =>
    rw [loop_body_of_some aco powf rnd w j hnext]
    simp only [remaining]
    split <;> split <;> omega

theorem tour_length_loop_body (aco : MaxMinACO) (powf : ℚ → ℚ → ℚ) (rnd : Nat → ℚ)
    (w : Walk) : (loop_body aco powf rnd w).tour.length = w.tour.length + 1 := by
  unfold loop_body
  cases next_node aco powf rnd w <;> simp

theorem while_loop_terminates (aco : MaxMinACO) (powf : ℚ → ℚ → ℚ) (rnd : Nat → ℚ)
    (hs : Servable aco powf) (hr : ∀ k, rnd k ≤ 1) :
    ∀ (fuel : Nat) (w : Walk), VisitInv aco w → remaining w ≤ fuel →
      w.tour.length + remaining w < MAX_NODES →
      ∃ w1, while_loop aco powf rnd fuel w = some w1 ∧ VisitInv aco w1 ∧
        w1.num_unvisited = 0 ∧ w1.tour.length < MAX_NODES
  | 0, w, hi, hf, hb => by
    have h0 : w.num_unvisited = 0 := by
      unfold remaining at hf
      omega
    exact ⟨w, by simp [while_loop, h0], hi, h0, by omega⟩
  | fuel + 1, w, hi, hf, hb => by
    by_cases hn : 0 < w.num_unvisited
    · have hlt := remaining_loop_body aco powf rnd w hs hr hi hn
      have hlen := tour_length_loop_body aco powf rnd w
      obtain ⟨w1, h1, h2, h3⟩ := while_loop_terminates aco powf rnd hs hr fuel
        (loop_body aco powf rnd w) (visitInv_loop_body aco powf rnd w hi) (by omega)
        (by omega)
      refine ⟨w1, ?_, h2, h3⟩
      unfold while_loop
      rw [if_pos hn, if_pos (by omega)]
      exact h1
    · have h0 : w.num_unvisited = 0 := by omega
      exact ⟨w, by simp [while_loop, h0], hi, h0, by omega⟩

theorem remaining_start (aco : MaxMinACO) (calls : Nat) :
    remaining (start_walk aco calls) = 2 * (aco.num_nodes - 1) := by
  simp [remaining, start_walk]

theorem buffer_start (aco : MaxMinACO) (calls : Nat) (hbuf : 2 * aco.num_nodes ≤ MAX_NODES) :
    (start_walk aco calls).tour.length + remaining (start_walk aco calls) < MAX_NODES := by
  rw [remaining_start]
  simp only [start_walk, List.length_singleton]
  unfold MAX_NODES at hbuf ⊢
  omega

theorem FLT_MIN_pos : 0 < FLT_MIN := by
  unfold FLT_MIN
  positivity

/-- An instance is servable when its scores are in the range of the normal `float`
numbers. -/
theorem servable_of_range (aco : MaxMinACO) (powf : ℚ → ℚ → ℚ)
    (hscore : ∀ i j, i < aco.num_nodes → j < aco.num_nodes → i ≠ j →
      FLT_MIN ≤ score aco powf i j ∧ score aco powf i j ≤ 2 ^ 100)
    (hdem : ∀ j, 1 ≤ j → j < aco.num_nodes → aco.demand j ≤ aco.vehicle_capacity)
    (hdist : ∀ i j, i < aco.num_nodes → j < aco.num_nodes → i ≠ j → 0 < aco.graph i j)
    (hph : ∀ i j, i < aco.num_nodes → j < aco.num_nodes → 0 < aco.pheromone i j) :
    Servable aco powf :=
  ⟨fun i j hi hj hne => lt_of_lt_of_le FLT_MIN_pos (hscore i j hi hj hne).1, hdem, hdist, hph⟩

/-- An instance is servable in exact arithmetic, where `powf` is positive on positive
bases. -/
theorem servable_of_pos (aco : MaxMinACO) (powf : ℚ → ℚ → ℚ)
    (hpow : ∀ x y, 0 < x → 0 < powf x y)
    (hdem : ∀ j, 1 ≤ j → j < aco.num_nodes → aco.demand j ≤ aco.vehicle_capacity)
    (hdist : ∀ i j, i < aco.num_nodes → j < aco.num_nodes → i ≠ j → 0 < aco.graph i j)
    (hph : ∀ i j, i < aco.num_nodes → j < aco.num_nodes → 0 < aco.pheromone i j) :
    Servable aco powf := by
  refine ⟨fun i j hi hj hne => ?_, hdem, hdist, hph⟩
  have hg : (0 : ℚ) < (aco.graph i j : ℚ) := by exact_mod_cast hdist i j hi hj hne
  exact mul_pos (hpow _ _ (hph i j hi hj)) (hpow _ _ (one_div_pos.2 hg))

theorem count_of_all_visited (aco : MaxMinACO) (w : Walk) (hi : VisitInv aco w)
    (h0 : w.num_unvisited = 0) (j : Nat) (hj : j ∈ customers aco) : w.tour.count j = 1 := by
  obtain ⟨-, hnum, -, hcount, -, -⟩ := hi
  rw [h0] at hnum
  have hnil := List.length_eq_zero.1 hnum.symm
  have hall := List.filter_eq_nil_iff.1 hnil
  have hu : w.unvisited j = false := by simpa using hall j hj
  rw [hcount j hj, hu]
  simp

theorem while_loop_iterate (aco : MaxMinACO) (powf : ℚ → ℚ → ℚ) (rnd : Nat → ℚ) :
    ∀ (fuel : Nat) (w w1 : Walk), while_loop aco powf rnd fuel w = some w1 →
      ∃ n, n ≤ fuel ∧ w1 = (loop_body aco powf rnd)^[n] w ∧ w1.num_unvisited = 0 ∧
        ∀ m, m < n → 0 < ((loop_body aco powf rnd)^[m] w).num_unvisited
  | 0, w, w1, h => by
    unfold while_loop at h
    split at h
    · simp at h
    · rename_i hn
      simp only [Option.some.injEq] at h
      subst h
      exact ⟨0, le_refl _, rfl, by omega, fun m hm => absurd hm (Nat.not_lt_zero m)⟩
  | fuel + 1, w, w1, h => by
    unfold while_loop at h
    split at h
    · rename_i hn
      split at h
      · obtain ⟨n, hle, hw, h0, hall⟩ := while_loop_iterate aco powf rnd fuel _ w1 h
        refine ⟨n + 1, by omega, ?_, h0, ?_⟩
        · rw [Function.iterate_succ_apply]
          exact hw
        · intro m hm
          cases m with
          | zero => exact hn
          | succ k =>
            rw [Function.iterate_succ_apply]
            exact hall k (by omega)
      · simp at h
    · rename_i hn
      simp only [Option.some.injEq] at h
      subst h
      exact ⟨0, by omega, rfl, by omega, fun m hm => absurd hm (Nat.not_lt_zero m)⟩

theorem while_loop_invariant (aco : MaxMinACO) (powf : ℚ → ℚ → ℚ) (rnd : Nat → ℚ)
    (P : Walk → Prop)
    (hstep : ∀ w, P w → 0 < w.num_unvisited → P (loop_body aco powf rnd w)) :
    ∀ (fuel : Nat) (w w1 : Walk), P w → while_loop aco powf rnd fuel w = some w1 →
      P w1 ∧ w1.num_unvisited = 0
  | 0, w, w1, hp, h => by
    unfold while_loop at h
    split at h
    · simp at h
    · rename_i hn
      simp only [Option.some.injEq] at h
      subst h
      exact ⟨hp, by omega⟩
  | fuel + 1, w, w1, hp, h => by
    unfold while_loop at h
    split at h
    · rename_i hn
      split at h
      · exact while_loop_invariant aco powf rnd P hstep fuel _ w1 (hstep w hp hn) h
      · simp at h
    · rename_i hn
      simp only [Option.some.injEq] at h
      subst h
      exact ⟨hp, by omega⟩

theorem length_loop_body (aco : MaxMinACO) (powf : ℚ → ℚ → ℚ) (rnd : Nat → ℚ) (w : Walk)
    (h : aco.num_nodes ≤ w.tour.length + w.num_unvisited) (hn : 0 < w.num_unvisited) :
    aco.num_nodes ≤ (loop_body aco powf rnd w).tour.length
      + (loop_body aco powf rnd w).num_unvisited := by
  cases hnext : next_node aco powf rnd w with
  | none =>
    rw [loop_body_of_none aco powf rnd w hnext]
    simp only [List.length_append, List.length_singleton]
    omega
  | some j =>
    rw [loop_body_of_some aco powf rnd w j hnext]
    simp only [List.length_append, List.length_singleton]
    omega

theorem construct_solution_length (aco : MaxMinACO) (powf : ℚ → ℚ → ℚ) (rnd : Nat → ℚ)
    (fuel calls : Nat) (ant : Ant) (calls1 : Nat)
    (h : construct_solution aco powf rnd fuel calls = some (ant, calls1)) :
    aco.num_nodes + 1 ≤ ant.tour.length := by
  obtain ⟨w, hw, hant, -⟩ := construct_solution_some aco powf rnd fuel calls ant calls1 h
  obtain ⟨hlen, h0⟩ := while_loop_invariant aco powf rnd
    (fun w => aco.num_nodes ≤ w.tour.length + w.num_unvisited)
    (length_loop_body aco powf rnd) fuel _ w
    (by simp only [start_walk, List.length_singleton]; omega) hw
  subst hant
  simp only [List.length_append, List.length_singleton]
  omega

/-- An instance of `MAX_NODES` nodes or more has no tour within the `MAX_NODES` entries of
`tour`: the tour has `num_nodes + 1` entries at least. -/
theorem construct_solution_overrun (aco : MaxMinACO) (powf : ℚ → ℚ → ℚ) (rnd : Nat → ℚ)
    (fuel calls : Nat) (h : MAX_NODES ≤ aco.num_nodes) :
    construct_solution aco powf rnd fuel calls = none := by
  cases hc : construct_solution aco powf rnd fuel calls with
  | none => rfl
  | some p =>
    obtain ⟨ant, calls1⟩ := p
    have hlen := construct_solution_length aco powf rnd fuel calls ant calls1 hc
    obtain ⟨w, -, hant, -, hw⟩ := construct_solution_some aco powf rnd fuel calls ant calls1 hc
    subst hant
    simp only [List.length_append, List.length_singleton] at hlen
    omega

/-- On the instance whose customer is at distance `INT_MAX` the heuristic factor
`(1 / INT_MAX) ^ 5` rounds to the `float` 0. -/
theorem far_power_underflows :
    powf32 (1 / (far_instance.graph 0 1 : ℚ)) far_instance.beta = 0 := by decide!

theorem far_total_prob (w : Walk) (h : w.current_node = 0) :
    total_prob far_instance powf32 w = 0 := by
  have hc : customers far_instance = [1] := by decide
  have hp : probability far_instance powf32 w 1 = 0 := by
    unfold probability
    split
    · rw [h, far_power_underflows, mul_zero]
    · rfl
  simp only [total_prob, hc, List.foldl_cons, List.foldl_nil, hp, add_zero]

theorem far_loop_body (rnd : Nat → ℚ) (w : Walk)
    (h : w.current_node = 0 ∧ 0 < w.num_unvisited) :
    (loop_body far_instance powf32 rnd w).current_node = 0 ∧
      0 < (loop_body far_instance powf32 rnd w).num_unvisited ∧
      (loop_body far_instance powf32 rnd w).tour = w.tour ++ [0] := by
  have hn : next_node far_instance powf32 rnd w = none := by
    unfold next_node
    rw [far_total_prob w h.1]
    simp
  rw [loop_body_of_none far_instance powf32 rnd w hn]
  exact ⟨rfl, h.2, rfl⟩

theorem far_while_loop (rnd : Nat → ℚ) :
    ∀ (fuel : Nat) (w : Walk), w.current_node = 0 ∧ 0 < w.num_unvisited →
      while_loop far_instance powf32 rnd fuel w = none
  | 0, w, h => by
    unfold while_loop
    rw [if_pos h.2]
  | fuel + 1, w, h => by
    unfold while_loop
    rw [if_pos h.2]
    split
    · have hb := far_loop_body rnd w h
      exact far_while_loop rnd fuel _ ⟨hb.1, hb.2.1⟩
    · rfl

/-- On the instance whose customer is at distance `INT_MAX`, with the rounding `powf32`,
`construct_solution` returns no tour. -/
theorem far_no_tour (rnd : Nat → ℚ) (fuel calls : Nat) :
    construct_solution far_instance powf32 rnd fuel calls = none := by
  unfold construct_solution
  rw [far_while_loop rnd fuel (start_walk far_instance calls) ⟨rfl, Nat.zero_lt_one⟩]

/-- On the instance whose customer is at distance `INT_MAX`, with the rounding `powf32`,
every execution of the loop body appends a depot entry and the loop condition holds after
it. -/
theorem far_iterate (rnd : Nat → ℚ) (calls : Nat) :
    ∀ (n : Nat),
      ((loop_body far_instance powf32 rnd)^[n] (start_walk far_instance calls)).current_node = 0 ∧
      0 < ((loop_body far_instance powf32 rnd)^[n] (start_walk far_instance calls)).num_unvisited ∧
      ((loop_body far_instance powf32 rnd)^[n] (start_walk far_instance calls)).tour
        = List.replicate (n + 1) 0
  | 0 => ⟨rfl, Nat.zero_lt_one, rfl⟩
  | n + 1 => by
    obtain ⟨h1, h2, h3⟩ := far_iterate rnd calls n
    rw [Function.iterate_succ_apply']
    obtain ⟨g1, g2, g3⟩ := far_loop_body rnd _ ⟨h1, h2⟩
    refine ⟨g1, g2, ?_⟩
    rw [g3, h3]
    exact (List.replicate_succ' (n + 1) 0).symm

theorem roulette_some_pos (unvisited : Nat → Bool) (prob : Nat → ℚ) (r : ℚ) (j : Nat) :
    ∀ (js : List Nat) (cum : ℚ), cum < r → roulette unvisited prob r js cum = some j →
      0 < prob j
  | [], _, _, h => by simp [roulette] at h
  | i :: js, cum, hc, h => by
    unfold roulette at h
    by_cases hu : unvisited i = true
    · rw [if_pos hu] at h
      by_cases hr : r ≤ cum + prob i
      · rw [if_pos hr] at h
        simp only [Option.some.injEq] at h
        subst h
        linarith
      · rw [if_neg hr] at h
        exact roulette_some_pos unvisited prob r j js _ (not_le.1 hr) h
    · rw [if_neg hu] at h
      exact roulette_some_pos unvisited prob r j js _ hc h

theorem next_node_total_pos (aco : MaxMinACO) (powf : ℚ → ℚ → ℚ) (rnd : Nat → ℚ) (w : Walk)
    (j : Nat) (h : next_node aco powf rnd w = some j) : 0 < total_prob aco powf w := by
  unfold next_node at h
  split at h
  · rename_i hpos
    exact hpos
  · simp at h

theorem next_node_fits_of_pos (aco : MaxMinACO) (powf : ℚ → ℚ → ℚ) (rnd : Nat → ℚ) (w : Walk)
    (j : Nat) (hr : 0 < rnd w.calls * total_prob aco powf w)
    (h : next_node aco powf rnd w = some j) :
    w.load + aco.demand j ≤ aco.vehicle_capacity := by
  unfold next_node at h
  split at h
  · have hp := roulette_some_pos _ _ _ j _ 0 hr h
    unfold probability at hp
    split at hp
    · rename_i hc
      exact hc.2
    · exact absurd hp (lt_irrefl _)
  · simp at h

theorem next_node_fits (aco : MaxMinACO) (powf : ℚ → ℚ → ℚ) (rnd : Nat → ℚ) (w : Walk) (j : Nat)
    (hr : 0 < rnd w.calls) (h : next_node aco powf rnd w = some j) :
    w.load + aco.demand j ≤ aco.vehicle_capacity :=
  next_node_fits_of_pos aco powf rnd w j
    (mul_pos hr (next_node_total_pos aco powf rnd w j h)) h

/-! ## Instances whose tours do not fit into `tour` -/

theorem crowdInv_loop_body (aco : MaxMinACO) (powf : ℚ → ℚ → ℚ) (rnd : Nat → ℚ) (w : Walk)
    (hpos : ∀ j, 1 ≤ j → j < aco.num_nodes → 0 < aco.demand j)
    (hd : ∀ j k, 1 ≤ j → j < aco.num_nodes → 1 ≤ k → k < aco.num_nodes →
      aco.vehicle_capacity < aco.demand j + aco.demand k)
    (hr : ∀ k, 0 < rnd k) (hi : CrowdInv aco w) : CrowdInv aco (loop_body aco powf rnd w) := by
  obtain ⟨hv, hfull, hlen⟩ := hi
  refine ⟨visitInv_loop_body aco powf rnd w hv, ?_⟩
  cases hn : next_node aco powf rnd w with
  | none =>
    rw [loop_body_of_none aco powf rnd w hn]
    refine ⟨fun h => absurd rfl h, ?_⟩
    simp only [remaining, List.length_append, List.length_singleton, if_true] at hlen ⊢
    split at hlen <;> omega
  | some j =>
    rw [loop_body_of_some aco powf rnd w j hn]
    obtain ⟨hjc, hju⟩ := next_node_some aco powf rnd w j hn
    have hj := (mem_customers aco j).1 hjc
    have hfit := next_node_fits aco powf rnd w j (hr _) hn
    have hload : w.load = 0 := by
      by_contra hne
      have := hfull hne j hju
      omega
    have hdj := hpos j hj.1 hj.2
    refine ⟨?_, ?_⟩
    · intro _ k hk
      have hk1 : w.unvisited k = true := by
        by_cases hkj : k = j
        · rw [hkj] at hk
          simp at hk
        · simpa [Function.update_noteq hkj] using hk
      have hkc := (mem_customers aco k).1 (hv.1 k hk1)
      have := hd j k hj.1 hj.2 hkc.1 hkc.2
      simp only
      omega
    · have hnu : 0 < w.num_unvisited := by
        rw [hv.2.1]
        exact List.length_pos_of_mem (List.mem_filter.2 ⟨hjc, hju⟩)
      simp only [remaining, List.length_append, List.length_singleton, hload, if_true,
        zero_add] at hlen ⊢
      split <;> omega

theorem crowdInv_start (aco : MaxMinACO) (calls : Nat) (hN : 1 ≤ aco.num_nodes) :
    CrowdInv aco (start_walk aco calls) := by
  refine ⟨visitInv_start aco calls, fun h => absurd rfl h, ?_⟩
  rw [remaining_start]
  simp only [start_walk, List.length_singleton]
  omega

theorem while_loop_length_le (aco : MaxMinACO) (powf : ℚ → ℚ → ℚ) (rnd : Nat → ℚ) :
    ∀ (fuel : Nat) (w w1 : Walk), w.tour.length ≤ MAX_NODES →
      while_loop aco powf rnd fuel w = some w1 → w1.tour.length ≤ MAX_NODES
  | 0, w, w1, hl, h => by
    unfold while_loop at h
    split at h
    · simp at h
    · simp only [Option.some.injEq] at h
      subst h
      exact hl
  | fuel + 1, w, w1, hl, h => by
    unfold while_loop at h
    split at h
    · split at h
      · rename_i hlt
        refine while_loop_length_le aco powf rnd fuel _ w1 ?_ h
        rw [tour_length_loop_body]
        omega
      · simp at h
    · simp only [Option.some.injEq] at h
      subst h
      exact hl

theorem crowded_walk (aco : MaxMinACO) (powf : ℚ → ℚ → ℚ) (rnd : Nat → ℚ) (fuel calls : Nat)
    (w : Walk) (hN : 1 ≤ aco.num_nodes)
    (hpos : ∀ j, 1 ≤ j → j < aco.num_nodes → 0 < aco.demand j)
    (hd : ∀ j k, 1 ≤ j → j < aco.num_nodes → 1 ≤ k → k < aco.num_nodes →
      aco.vehicle_capacity < aco.demand j + aco.demand k)
    (hr : ∀ k, 0 < rnd k)
    (hw : while_loop aco powf rnd fuel (start_walk aco calls) = some w) :
    2 * aco.num_nodes ≤ w.tour.length + 2 ∧ w.tour.length ≤ MAX_NODES := by
  obtain ⟨⟨-, -, hlen⟩, h0⟩ := while_loop_invariant aco powf rnd (CrowdInv aco)
    (fun w hi _ => crowdInv_loop_body aco powf rnd w hpos hd hr hi) fuel _ w
    (crowdInv_start aco calls hN) hw
  have hl := while_loop_length_le aco powf rnd fuel _ w
    (by simp [start_walk, MAX_NODES]) hw
  refine ⟨?_, hl⟩
  simp only [remaining, h0] at hlen
  split at hlen <;> omega

/-- When no two customers fit into one route and `2 * num_nodes - 1` exceeds `MAX_NODES`,
the tour does not fit into `tour`. -/
theorem crowded_no_tour (aco : MaxMinACO) (powf : ℚ → ℚ → ℚ) (rnd : Nat → ℚ)
    (fuel calls : Nat) (hN : MAX_NODES + 2 ≤ 2 * aco.num_nodes)
    (hpos : ∀ j, 1 ≤ j → j < aco.num_nodes → 0 < aco.demand j)
    (hd : ∀ j k, 1 ≤ j → j < aco.num_nodes → 1 ≤ k → k < aco.num_nodes →
      aco.vehicle_capacity < aco.demand j + aco.demand k)
    (hr : ∀ k, 0 < rnd k) : construct_solution aco powf rnd fuel calls = none := by
  cases hc : construct_solution aco powf rnd fuel calls with
  | none => rfl
  | some p =>
    obtain ⟨ant, calls1⟩ := p
    obtain ⟨w, hw, -, -, hlt⟩ := construct_solution_some aco powf rnd fuel calls ant calls1 hc
    have h := (crowded_walk aco powf rnd fuel calls w
      (by unfold MAX_NODES at hN; omega) hpos hd hr hw).1
    omega

/-- When no two customers fit into one route and `2 * num_nodes - 2` exceeds `MAX_NODES`,
the writes of the loop leave `tour`. -/
theorem crowded_no_loop_end (aco : MaxMinACO) (powf : ℚ → ℚ → ℚ) (rnd : Nat → ℚ)
    (fuel calls : Nat) (hN : MAX_NODES + 3 ≤ 2 * aco.num_nodes)
    (hpos : ∀ j, 1 ≤ j → j < aco.num_nodes → 0 < aco.demand j)
    (hd : ∀ j k, 1 ≤ j → j < aco.num_nodes → 1 ≤ k → k < aco.num_nodes →
      aco.vehicle_capacity < aco.demand j + aco.demand k)
    (hr : ∀ k, 0 < rnd k) :
    while_loop aco powf rnd fuel (start_walk aco calls) = none := by
  cases hw : while_loop aco powf rnd fuel (start_walk aco calls) with
  | none => rfl
  | some w =>
    have h := crowded_walk aco powf rnd fuel calls w
      (by unfold MAX_NODES at hN; omega) hpos hd hr hw
    omega

theorem crowd_iterate (aco : MaxMinACO) (powf : ℚ → ℚ → ℚ) (rnd : Nat → ℚ) (calls : Nat)
    (hN : 1 ≤ aco.num_nodes)
    (hpos : ∀ j, 1 ≤ j → j < aco.num_nodes → 0 < aco.demand j)
    (hd : ∀ j k, 1 ≤ j → j < aco.num_nodes → 1 ≤ k → k < aco.num_nodes →
      aco.vehicle_capacity < aco.demand j + aco.demand k)
    (hr : ∀ k, 0 < rnd k) :
    ∀ (n : Nat), CrowdInv aco ((loop_body aco powf rnd)^[n] (start_walk aco calls)) ∧
      ((loop_body aco powf rnd)^[n] (start_walk aco calls)).tour.length = n + 1
  | 0 => ⟨crowdInv_start aco calls hN, rfl⟩
  | n + 1 => by
    obtain ⟨h1, h2⟩ := crowd_iterate aco powf rnd calls hN hpos hd hr n
    rw [Function.iterate_succ_apply']
    exact ⟨crowdInv_loop_body aco powf rnd _ hpos hd hr h1, by rw [tour_length_loop_body, h2]⟩

/-- When no two customers fit into one route, a customer is still unvisited after
`2 * num_nodes - 4` executions of the loop body. -/
theorem crowd_iterate_unvisited (aco : MaxMinACO) (powf : ℚ → ℚ → ℚ) (rnd : Nat → ℚ)
    (calls n : Nat) (hN : 1 ≤ aco.num_nodes) (hn : n + 4 ≤ 2 * aco.num_nodes)
    (hpos : ∀ j, 1 ≤ j → j < aco.num_nodes → 0 < aco.demand j)
    (hd : ∀ j k, 1 ≤ j → j < aco.num_nodes → 1 ≤ k → k < aco.num_nodes →
      aco.vehicle_capacity < aco.demand j + aco.demand k)
    (hr : ∀ k, 0 < rnd k) :
    0 < ((loop_body aco powf rnd)^[n] (start_walk aco calls)).num_unvisited ∧
      ((loop_body aco powf rnd)^[n] (start_walk aco calls)).tour.length = n + 1 := by
  obtain ⟨⟨-, -, h⟩, hl⟩ := crowd_iterate aco powf rnd calls hN hpos hd hr n
  refine ⟨?_, hl⟩
  rw [hl] at h
  simp only [remaining] at h
  split at h <;> omega

theorem crowded_demand_pos (n j : Nat) (h : 1 ≤ j) : 0 < (crowded_instance n).demand j := by
  have hj : j ≠ 0 := by omega
  simp [crowded_instance, hj]

theorem crowded_demand_pair (n j k : Nat) (hj : 1 ≤ j) (hk : 1 ≤ k) :
    (crowded_instance n).vehicle_capacity
      < (crowded_instance n).demand j + (crowded_instance n).demand k := by
  have hj0 : j ≠ 0 := by omega
  have hk0 : k ≠ 0 := by omega
  simp [crowded_instance, hj0, hk0]

/-- The instance `crowded_instance n` meets the conditions of the claims on feasible
instances, and its scores are 10. -/
theorem crowded_feasible (n : Nat) :
    (∀ j, 1 ≤ j → j < (crowded_instance n).num_nodes →
        (crowded_instance n).demand j ≤ (crowded_instance n).vehicle_capacity) ∧
      (∀ i j, i ≠ j → 0 < (crowded_instance n).graph i j) ∧
      (∀ i j, 0 < (crowded_instance n).pheromone i j) ∧
      (∀ i j, i ≠ j → score (crowded_instance n) powf_int i j = 10) := by
  refine ⟨?_, ?_, ?_, ?_⟩
  · intro j hj _
    have hj0 : j ≠ 0 := by omega
    simp [crowded_instance, hj0]
  · intro i j hne
    simp [crowded_instance, hne]
  · intro i j
    simp [crowded_instance]
  · intro i j hne
    simp [score, crowded_instance, hne, powf_int]

theorem half_draws_pos (k : Nat) : 0 < half_draws k := by norm_num [half_draws]

theorem half_draws_range (k : Nat) : 0 ≤ half_draws k ∧ half_draws k < 1 := by
  norm_num [half_draws]

/-- The instance whose customer is at distance `INT_MAX` meets the conditions of the claims
on feasible instances. -/
theorem far_feasible :
    (∀ j, 1 ≤ j → j < far_instance.num_nodes →
        far_instance.demand j ≤ far_instance.vehicle_capacity) ∧
      (∀ i j, i ≠ j → 0 < far_instance.graph i j) ∧
      (∀ i j, 0 < far_instance.pheromone i j) := by
  refine ⟨?_, ?_, ?_⟩
  · intro j _ _
    simp only [far_instance]
    split <;> decide
  · intro i j hne
    simp [far_instance, hne]
  · intro i j
    simp [far_instance]

/-- On the instance of 51 nodes with unit demands and capacity 1 the loop executes its body
99 times at least, after which `tour[0 .. 99]` is written: the next write, in the loop or
after it, goes to `tour[100]`. -/
theorem crowded_51_walk :
    (∀ m, m < 99 →
      0 < ((loop_body (crowded_instance 51) powf_int half_draws)^[m]
          (start_walk (crowded_instance 51) 0)).num_unvisited) ∧
    ((loop_body (crowded_instance 51) powf_int half_draws)^[99]
        (start_walk (crowded_instance 51) 0)).tour.length = MAX_NODES :=
  ⟨fun m hm => (crowd_iterate_unvisited (crowded_instance 51) powf_int half_draws 0 m
      (by decide) (by simp only [crowded_instance]; omega)
      (fun j hj _ => crowded_demand_pos 51 j hj)
      (fun j k hj _ hk _ => crowded_demand_pair 51 j k hj hk) half_draws_pos).1,
    (crowd_iterate (crowded_instance 51) powf_int half_draws 0 (by decide)
      (fun j hj _ => crowded_demand_pos 51 j hj)
      (fun j k hj _ hk _ => crowded_demand_pair 51 j k hj hk) half_draws_pos 99).2⟩

/-- C1 as stated fails, in two ways. With the only customer at distance `INT_MAX` (demand 1,
capacity 5, pheromone 10, `alpha = 1`, `beta = 5`, draws 1/2) the claim's conditions hold,
but the power `(1 / INT_MAX) ^ 5` rounds to the `float` 0, the score of the customer is 0,
and the loop appends depot returns only: `construct_solution` returns no tour, whatever the
bound on the iterations. And on the instance of 51 nodes with unit distances, unit demands
and capacity 1, which meets the conditions too and has the scores 10, the tour has 101
entries, one more than `tour`: the loop executes its body 99 times at least, after which
`tour[0 .. 99]` is written, so that the next write goes to `tour[100]`, and again no tour
is returned. -/
theorem C1_no_tour_on_underflow_or_overrun :
    ((∀ j, 1 ≤ j → j < far_instance.num_nodes →
        far_instance.demand j ≤ far_instance.vehicle_capacity) ∧
      (∀ i j, i ≠ j → 0 < far_instance.graph i j) ∧
      (∀ i j, 0 < far_instance.pheromone i j)) ∧
    (∀ k, 0 ≤ half_draws k ∧ half_draws k < 1) ∧
    powf32 (1 / (far_instance.graph 0 1 : ℚ)) far_instance.beta = 0 ∧
    (∀ fuel, construct_solution far_instance powf32 half_draws fuel 0 = none) ∧
    ((∀ j, 1 ≤ j → j < (crowded_instance 51).num_nodes →
        (crowded_instance 51).demand j ≤ (crowded_instance 51).vehicle_capacity) ∧
      (∀ i j, i ≠ j → 0 < (crowded_instance 51).graph i j) ∧
      (∀ i j, 0 < (crowded_instance 51).pheromone i j) ∧
      (∀ i j, i ≠ j → score (crowded_instance 51) powf_int i j = 10)) ∧
    ((∀ m, m < 99 →
        0 < ((loop_body (crowded_instance 51) powf_int half_draws)^[m]
            (start_walk (crowded_instance 51) 0)).num_unvisited) ∧
      ((loop_body (crowded_instance 51) powf_int half_draws)^[99]
          (start_walk (crowded_instance 51) 0)).tour.length = MAX_NODES) ∧
    (∀ fuel, construct_solution (crowded_instance 51) powf_int half_draws fuel 0 = none) :=
  ⟨far_feasible, half_draws_range, far_power_underflows,
    fun fuel => far_no_tour half_draws fuel 0, crowded_feasible 51, crowded_51_walk,
    fun fuel => crowded_no_tour (crowded_instance 51) powf_int half_draws fuel 0 (by decide)
      (fun j hj _ => crowded_demand_pos 51 j hj)
      (fun j k hj _ hk _ => crowded_demand_pair 51 j k hj hk) half_draws_pos⟩

/-- C1, amended: on an instance of at most `MAX_NODES / 2` nodes in which no customer
demands more than the capacity, with positive distances between distinct nodes and positive
pheromone, whose scores between distinct nodes all lie in the range from `FLT_MIN` to
`2 ^ 100` (they neither underflow, nor does their sum overflow), and for draws in [0,1),
`construct_solution` returns (within `2 * (num_nodes - 1)` iterations of its loop) a tour
that starts with the depot 0, ends with the depot 0, holds every customer
`1 .. num_nodes - 1` exactly once and lies within the `MAX_NODES` entries of `tour`. -/
theorem C1_tour_visits_every_customer_once (aco : MaxMinACO) (powf : ℚ → ℚ → ℚ)
    (rnd : Nat → ℚ) (fuel calls : Nat)
    (hscore : ∀ i j, i < aco.num_nodes → j < aco.num_nodes → i ≠ j →
      FLT_MIN ≤ score aco powf i j ∧ score aco powf i j ≤ 2 ^ 100)
    (hbuf : 2 * aco.num_nodes ≤ MAX_NODES)
    (hdem : ∀ j, 1 ≤ j → j < aco.num_nodes → aco.demand j ≤ aco.vehicle_capacity)
    (hdist : ∀ i j, i < aco.num_nodes → j < aco.num_nodes → i ≠ j → 0 < aco.graph i j)
    (hph : ∀ i j, i < aco.num_nodes → j < aco.num_nodes → 0 < aco.pheromone i j)
    (hrnd : ∀ k, 0 ≤ rnd k ∧ rnd k < 1)
    (hfuel : 2 * (aco.num_nodes - 1) ≤ fuel) :
    ∃ ant calls1, construct_solution aco powf rnd fuel calls = some (ant, calls1) ∧
      ant.tour.head? = some 0 ∧ ant.tour.getLast? = some 0 ∧
      (∀ j, 1 ≤ j → j < aco.num_nodes → ant.tour.count j = 1) ∧
      ant.tour.length ≤ MAX_NODES := by
  obtain ⟨w, hw, hi, h0, hlen⟩ := while_loop_terminates aco powf rnd
    (servable_of_range aco powf hscore hdem hdist hph)
    (fun k => le_of_lt (hrnd k).2) fuel (start_walk aco calls) (visitInv_start aco calls)
    (by rw [remaining_start]; exact hfuel) (buffer_start aco calls hbuf)
  refine ⟨_, _, construct_solution_of_loop aco powf rnd fuel calls w hw hlen, ?_, by simp, ?_,
    ?_⟩
  · have hhead := hi.2.2.1
    cases ht : w.tour with
    | nil => simp [ht] at hhead
    | cons a t =>
      rw [ht] at hhead
      simpa using hhead
  · intro j h1 h2
    have hj := (mem_customers aco j).2 ⟨h1, h2⟩
    have hne : j ≠ 0 := by omega
    simp only [List.count_append]
    rw [count_of_all_visited aco w hi h0 j hj]
    have : List.count j [0] = 0 := by
      rw [List.count_eq_zero]
      simpa using hne
    rw [this]
  · simp only [List.length_append, List.length_singleton]
    omega

theorem powf_int_pos (x y : ℚ) (h : 0 < x) : 0 < powf_int x y := by
  unfold powf_int
  exact zpow_pos h _

theorem scenario_servable : Servable scenario powf_int := by
  refine servable_of_pos scenario powf_int powf_int_pos ?_ ?_ ?_
  · intro j _ _
    simp only [scenario]
    split <;> decide
  · intro i j hi hj hne
    simp only [scenario] at hi hj ⊢
    interval_cases i <;> interval_cases j <;> simp at hne ⊢
  · intro i j _ _
    simp [scenario]

theorem scenario_scores (i j : Nat) (hi : i < scenario.num_nodes)
    (hj : j < scenario.num_nodes) (hne : i ≠ j) :
    FLT_MIN ≤ score scenario powf_int i j ∧ score scenario powf_int i j ≤ 2 ^ 100 := by
  simp only [scenario] at hi hj
  interval_cases i <;> interval_cases j <;>
    first
    | exact absurd rfl hne
    | norm_num [score, scenario, powf_int, FLT_MIN]

/-- Witness of C1 on the four-node scenario. -/
theorem C1_tour_visits_every_customer_once_witness :
    ∃ ant calls1, construct_solution scenario powf_int half_draws 6 0 = some (ant, calls1) ∧
      ant.tour.head? = some 0 ∧ ant.tour.getLast? = some 0 ∧
      (∀ j, 1 ≤ j → j < scenario.num_nodes → ant.tour.count j = 1) ∧
      ant.tour.length ≤ MAX_NODES :=
  C1_tour_visits_every_customer_once scenario powf_int half_draws 6 0
    scenario_scores (by decide)
    scenario_servable.2.1 scenario_servable.2.2.1 scenario_servable.2.2.2
    (fun _ => by norm_num [half_draws]) (by decide)

/-- C2: on the four-node instance with unit distances, demands 0, 4, 2, 2 and capacity 5
(every demand is non-negative and at most the capacity) and the draws 1/2, 0, 0, ... (all in
[0,1)), `construct_solution` returns the tour 0 2 1 0 3 0, whose first route serves the
customers 2 and 1 with a summed demand of 6, more than the capacity 5: the draw 0 selects
customer 1, whose score is 0. -/
theorem C2_route_exceeds_capacity :
    (∀ j, 0 ≤ overload_instance.demand j ∧ overload_instance.demand j ≤ overload_instance.vehicle_capacity) ∧
      (∀ k, 0 ≤ overload_draws k ∧ overload_draws k < 1) ∧
      construct_solution overload_instance powf_int overload_draws 8 0
        = some ({ tour := [0, 2, 1, 0, 3, 0], cost := 5 }, 3) ∧
      split_routes [0, 2, 1, 0, 3, 0] [] = [[], [2, 1], [3], []] ∧
      route_demand overload_instance [2, 1] = 6 ∧
      overload_instance.vehicle_capacity = 5 := by
  refine ⟨?_, ?_, by decide!, by decide!, by decide!, rfl⟩
  · intro j
    simp only [overload_instance]
    split_ifs <;> decide
  · intro k
    simp only [overload_draws]
    split_ifs <;> norm_num

/-! ## Bounds of the pheromone matrix -/

theorem foldl_preserves {α β : Type} (P : β → Prop) (f : β → α → β) :
    ∀ (l : List α) (b : β), (∀ b a, a ∈ l → P b → P (f b a)) → P b → P (l.foldl f b)
  | [], _, _, hb => hb
  | a :: l, b, h, hb =>
    foldl_preserves P f l (f b a) (fun b1 a1 ha1 => h b1 a1 (List.mem_cons_of_mem _ ha1))
      (h b a (List.mem_cons_self _ _) hb)

theorem deposit_apply (M : ℚ) (ph : Nat → Nat → ℚ) (a b : Nat) (d : ℚ) (x y : Nat) :
    deposit M ph a b d x y = if x = a ∧ y = b then min M (ph a b + d) else ph x y := by
  unfold deposit
  by_cases h : ph a b + d > M
  · rw [if_pos h, min_eq_left (le_of_lt h)]
    rfl
  · rw [if_neg h, min_eq_right (not_lt.1 h)]
    rfl

theorem inBounds_initial (aco : MaxMinACO) (h : aco.pheromone_min ≤ aco.pheromone_max) :
    InBounds aco (initialize_pheromone aco).pheromone := by
  intro i j hi hj
  simp [initialize_pheromone, hi, hj, h]

theorem inBounds_evaporate (aco : MaxMinACO) (hrho : 0 < aco.rho ∧ aco.rho < 1)
    (hmin : 0 < aco.pheromone_min) (hle : aco.pheromone_min ≤ aco.pheromone_max)
    (h : InBounds aco aco.pheromone) : InBounds aco (evaporate aco) := by
  intro i j hi hj
  obtain ⟨h1, h2⟩ := h i j hi hj
  unfold evaporate
  rw [if_pos ⟨hi, hj⟩]
  split_ifs with hc
  · exact ⟨le_refl _, hle⟩
  · refine ⟨not_lt.1 hc, ?_⟩
    have hp : 0 ≤ aco.pheromone i j := by linarith
    nlinarith [hrho.1, hrho.2]

theorem inBounds_deposit (aco : MaxMinACO) (ph : Nat → Nat → ℚ) (a b : Nat) (d : ℚ)
    (hd : 0 ≤ d) (hle : aco.pheromone_min ≤ aco.pheromone_max) (h : InBounds aco ph) :
    InBounds aco (deposit aco.pheromone_max ph a b d) := by
  intro i j hi hj
  obtain ⟨h1, h2⟩ := h i j hi hj
  rw [deposit_apply]
  split_ifs with hc
  · obtain ⟨rfl, rfl⟩ := hc
    exact ⟨le_min hle (by linarith), min_le_left _ _⟩
  · exact ⟨h1, h2⟩

theorem inBounds_deposit_ant (aco : MaxMinACO) (ph : Nat → Nat → ℚ) (ant : Ant)
    (hc : 0 < ant.cost) (hle : aco.pheromone_min ≤ aco.pheromone_max) (h : InBounds aco ph) :
    InBounds aco (deposit_ant aco ph ant) := by
  unfold deposit_ant
  refine foldl_preserves (InBounds aco) _ _ _ ?_ h
  intro ph1 i _ h1
  exact inBounds_deposit aco ph1 _ _ _ (le_of_lt (one_div_pos.2 hc)) hle h1

theorem inBounds_update (aco : MaxMinACO) (ants : List Ant) (hrho : 0 < aco.rho ∧ aco.rho < 1)
    (hmin : 0 < aco.pheromone_min) (hle : aco.pheromone_min ≤ aco.pheromone_max)
    (hcost : ∀ ant ∈ ants, 0 < ant.cost) (h : InBounds aco aco.pheromone) :
    InBounds aco (update_pheromones aco ants).pheromone := by
  unfold update_pheromones
  simp only
  refine foldl_preserves (InBounds aco) _ _ _ ?_ (inBounds_evaporate aco hrho hmin hle h)
  intro ph1 ant hant h1
  exact inBounds_deposit_ant aco ph1 ant (hcost ant (List.mem_of_mem_take hant)) hle h1

theorem inBounds_updates (aco0 : MaxMinACO) :
    ∀ (antss : List (List Ant)) (aco : MaxMinACO),
      aco.num_nodes = aco0.num_nodes → aco.rho = aco0.rho →
      aco.pheromone_min = aco0.pheromone_min → aco.pheromone_max = aco0.pheromone_max →
      0 < aco0.rho ∧ aco0.rho < 1 → 0 < aco0.pheromone_min →
      aco0.pheromone_min ≤ aco0.pheromone_max →
      (∀ ants ∈ antss, ∀ ant ∈ ants, 0 < ant.cost) →
      InBounds aco aco.pheromone →
      InBounds aco0 (antss.foldl update_pheromones aco).pheromone
  | [], aco, hn, _, hmi, hma, _, _, _, _, h => by
    intro i j hi hj
    have := h i j (hn ▸ hi) (hn ▸ hj)
    rw [hmi, hma] at this
    exact this
  | ants :: antss, aco, hn, hr, hmi, hma, hrho, hmin, hle, hcost, h => by
    simp only [List.foldl_cons]
    refine inBounds_updates aco0 antss (update_pheromones aco ants) hn hr hmi hma hrho hmin hle
      (fun a ha => hcost a (List.mem_cons_of_mem _ ha)) ?_
    exact inBounds_update aco ants (hr ▸ hrho) (hmi ▸ hmin) (by rw [hmi, hma]; exact hle)
      (hcost ants (List.mem_cons_self _ _)) h

/-- C4: with `0 < rho < 1`, `0 < pheromone_min < pheromone_max` and strictly positive ant
costs, after `initialize_pheromone` and any number of calls of `update_pheromones` every
entry `pheromone[i][j]` with `i, j < num_nodes` lies in `[pheromone_min, pheromone_max]`. -/
theorem C4_pheromone_within_bounds (aco : MaxMinACO) (antss : List (List Ant)) (i j : Nat)
    (hrho : 0 < aco.rho ∧ aco.rho < 1) (hmin : 0 < aco.pheromone_min)
    (hlt : aco.pheromone_min < aco.pheromone_max)
    (hcost : ∀ ants ∈ antss, ∀ ant ∈ ants, 0 < ant.cost)
    (hi : i < aco.num_nodes) (hj : j < aco.num_nodes) :
    aco.pheromone_min ≤ (antss.foldl update_pheromones (initialize_pheromone aco)).pheromone i j ∧
      (antss.foldl update_pheromones (initialize_pheromone aco)).pheromone i j
        ≤ aco.pheromone_max :=
  inBounds_updates aco antss (initialize_pheromone aco) rfl rfl rfl rfl hrho hmin (le_of_lt hlt)
    hcost (inBounds_initial aco (le_of_lt hlt)) i j hi hj

/-- Witness of C4: the scenario after initialisation and two updates with the tour
0 1 2 3 0 of cost 12. -/
theorem C4_pheromone_within_bounds_witness :
    scenario.pheromone_min
        ≤ ([[⟨[0, 1, 2, 3, 0], 12⟩], [⟨[0, 1, 2, 3, 0], 12⟩]].foldl update_pheromones
            (initialize_pheromone scenario)).pheromone 0 1 ∧
      ([[⟨[0, 1, 2, 3, 0], 12⟩], [⟨[0, 1, 2, 3, 0], 12⟩]].foldl update_pheromones
            (initialize_pheromone scenario)).pheromone 0 1 ≤ scenario.pheromone_max :=
  C4_pheromone_within_bounds scenario [[⟨[0, 1, 2, 3, 0], 12⟩], [⟨[0, 1, 2, 3, 0], 12⟩]] 0 1
    (by norm_num [scenario]) (by norm_num [scenario]) (by norm_num [scenario])
    (by simp) (by decide) (by decide)

/-! ## The best ant of `max_min_aco` -/

theorem ant_turn_some (powf : ℚ → ℚ → ℚ) (rnd : Nat → ℚ) (fuel : Nat) (s s1 : Colony)
    (h : ant_turn powf rnd fuel s = some s1) :
    ∃ ant calls, construct_solution s.aco powf rnd fuel s.calls = some (ant, calls) ∧
      s1 = { s with
        ants := s.ants ++ [ant]
        best_ant := if ant.cost < s.best_ant.cost then ant else s.best_ant
        calls := calls
        trace := s.trace ++ [ant] } := by
  unfold ant_turn at h
  cases hc : construct_solution s.aco powf rnd fuel s.calls with
  | none => simp [hc] at h
  | some p =>
    obtain ⟨ant, calls⟩ := p
    simp only [hc, Option.some.injEq] at h
    exact ⟨ant, calls, rfl, h.symm⟩

theorem ant_turn_cost_le (powf : ℚ → ℚ → ℚ) (rnd : Nat → ℚ) (fuel : Nat) (s s1 : Colony)
    (h : ant_turn powf rnd fuel s = some s1) :
    s1.best_ant.cost ≤ s.best_ant.cost ∧ s1.aco = s.aco := by
  obtain ⟨ant, calls, -, rfl⟩ := ant_turn_some powf rnd fuel s s1 h
  refine ⟨?_, rfl⟩
  simp only
  split_ifs with hc
  · exact le_of_lt hc
  · exact le_refl _

theorem ant_loop_cost_le (powf : ℚ → ℚ → ℚ) (rnd : Nat → ℚ) (fuel : Nat) :
    ∀ (n : Nat) (s s1 : Colony), ant_loop powf rnd fuel n s = some s1 →
      s1.best_ant.cost ≤ s.best_ant.cost
  | 0, s, s1, h => by
    simp only [ant_loop, Option.some.injEq] at h
    rw [← h]
  | n + 1, s, s1, h => by
    unfold ant_loop at h
    cases ht : ant_turn powf rnd fuel s with
    | none => simp [ht] at h
    | some s2 =>
      simp only [ht] at h
      exact le_trans (ant_loop_cost_le powf rnd fuel n s2 s1 h)
        (ant_turn_cost_le powf rnd fuel s s2 ht).1

theorem iteration_some (powf : ℚ → ℚ → ℚ) (rnd : Nat → ℚ) (fuel : Nat) (s s1 : Colony)
    (h : iteration powf rnd fuel s = some s1) :
    ∃ s2, ant_loop powf rnd fuel s.aco.num_ants { s with ants := [] } = some s2 ∧
      s1 = { s2 with aco := update_pheromones s2.aco s2.ants } := by
  unfold iteration at h
  cases hl : ant_loop powf rnd fuel s.aco.num_ants { s with ants := [] } with
  | none => simp [hl] at h
  | some s2 =>
    simp only [hl, Option.some.injEq] at h
    exact ⟨s2, rfl, h.symm⟩

theorem iteration_cost_le (powf : ℚ → ℚ → ℚ) (rnd : Nat → ℚ) (fuel : Nat) (s s1 : Colony)
    (h : iteration powf rnd fuel s = some s1) : s1.best_ant.cost ≤ s.best_ant.cost := by
  obtain ⟨s2, h2, rfl⟩ := iteration_some powf rnd fuel s s1 h
  exact ant_loop_cost_le powf rnd fuel _ { s with ants := [] } s2 h2

theorem bestInv_ant_turn (powf : ℚ → ℚ → ℚ) (rnd : Nat → ℚ) (fuel : Nat) (s s1 : Colony)
    (h : ant_turn powf rnd fuel s = some s1) (hi : BestInv s) : BestInv s1 := by
  obtain ⟨ant, calls, -, rfl⟩ := ant_turn_some powf rnd fuel s s1 h
  unfold BestInv
  simp only
  by_cases hc : ant.cost < s.best_ant.cost
  · rw [if_pos hc]
    right
    refine ⟨s.trace, [], rfl, ?_, by simp⟩
    intro a ha
    rcases hi with ⟨hb, hall⟩ | ⟨pre, post, ht, hpre, hpost⟩
    · rw [hb] at hc
      exact lt_of_lt_of_le hc (hall a ha)
    · rw [ht] at ha
      rcases List.mem_append.1 ha with h1 | h1
      · exact lt_trans hc (hpre a h1)
      · rcases List.mem_cons.1 h1 with rfl | h2
        · exact hc
        · exact lt_of_lt_of_le hc (hpost a h2)
  · rw [if_neg hc]
    rcases hi with ⟨hb, hall⟩ | ⟨pre, post, ht, hpre, hpost⟩
    · left
      refine ⟨hb, ?_⟩
      intro a ha
      rcases List.mem_append.1 ha with h1 | h1
      · exact hall a h1
      · simp only [List.mem_singleton] at h1
        subst h1
        rw [hb] at hc
        exact not_lt.1 hc
    · right
      refine ⟨pre, post ++ [ant], by rw [ht]; simp, hpre, ?_⟩
      intro a ha
      rcases List.mem_append.1 ha with h1 | h1
      · exact hpost a h1
      · simp only [List.mem_singleton] at h1
        subst h1
        exact not_lt.1 hc

theorem bestInv_ant_loop (powf : ℚ → ℚ → ℚ) (rnd : Nat → ℚ) (fuel : Nat) :
    ∀ (n : Nat) (s s1 : Colony), ant_loop powf rnd fuel n s = some s1 → BestInv s → BestInv s1
  | 0, s, s1, h, hi => by
    simp only [ant_loop, Option.some.injEq] at h
    rw [← h]
    exact hi
  | n + 1, s, s1, h, hi => by
    unfold ant_loop at h
    cases ht : ant_turn powf rnd fuel s with
    | none => simp [ht] at h
    | some s2 =>
      simp only [ht] at h
      exact bestInv_ant_loop powf rnd fuel n s2 s1 h (bestInv_ant_turn powf rnd fuel s s2 ht hi)

theorem bestInv_iteration (powf : ℚ → ℚ → ℚ) (rnd : Nat → ℚ) (fuel : Nat) (s s1 : Colony)
    (h : iteration powf rnd fuel s = some s1) (hi : BestInv s) : BestInv s1 := by
  obtain ⟨s2, h2, rfl⟩ := iteration_some powf rnd fuel s s1 h
  exact bestInv_ant_loop powf rnd fuel _ { s with ants := [] } s2 h2 hi

theorem bestInv_iteration_loop (powf : ℚ → ℚ → ℚ) (rnd : Nat → ℚ) (fuel : Nat) :
    ∀ (k : Nat) (s s1 : Colony), iteration_loop powf rnd fuel k s = some s1 → BestInv s →
      BestInv s1
  | 0, s, s1, h, hi => by
    simp only [iteration_loop, Option.some.injEq] at h
    rw [← h]
    exact hi
  | k + 1, s, s1, h, hi => by
    unfold iteration_loop at h
    cases ht : iteration powf rnd fuel s with
    | none => simp [ht] at h
    | some s2 =>
      simp only [ht] at h
      exact bestInv_iteration_loop powf rnd fuel k s2 s1 h
        (bestInv_iteration powf rnd fuel s s2 ht hi)

theorem bestInv_start (aco : MaxMinACO) : BestInv (start_colony aco) :=
  Or.inl ⟨rfl, by simp [start_colony]⟩

theorem ant_loop_trace (powf : ℚ → ℚ → ℚ) (rnd : Nat → ℚ) (fuel : Nat) :
    ∀ (n : Nat) (s s1 : Colony), ant_loop powf rnd fuel n s = some s1 →
      s1.trace.length = s.trace.length + n ∧ s1.aco = s.aco
  | 0, s, s1, h => by
    simp only [ant_loop, Option.some.injEq] at h
    rw [← h]
    exact ⟨rfl, rfl⟩
  | n + 1, s, s1, h => by
    unfold ant_loop at h
    cases ht : ant_turn powf rnd fuel s with
    | none => simp [ht] at h
    | some s2 =>
      simp only [ht] at h
      obtain ⟨h1, h2⟩ := ant_loop_trace powf rnd fuel n s2 s1 h
      obtain ⟨ant, calls, -, rfl⟩ := ant_turn_some powf rnd fuel s s2 ht
      refine ⟨?_, h2⟩
      rw [h1]
      simp only [List.length_append, List.length_singleton]
      omega

theorem iteration_trace (powf : ℚ → ℚ → ℚ) (rnd : Nat → ℚ) (fuel : Nat) (s s1 : Colony)
    (h : iteration powf rnd fuel s = some s1) :
    s1.trace.length = s.trace.length + s.aco.num_ants ∧ s1.aco.num_ants = s.aco.num_ants := by
  obtain ⟨s2, h2, rfl⟩ := iteration_some powf rnd fuel s s1 h
  obtain ⟨h3, h4⟩ := ant_loop_trace powf rnd fuel _ { s with ants := [] } s2 h2
  refine ⟨h3, ?_⟩
  simp only [update_pheromones]
  rw [h4]

theorem iteration_loop_trace (powf : ℚ → ℚ → ℚ) (rnd : Nat → ℚ) (fuel : Nat) :
    ∀ (k : Nat) (s s1 : Colony), iteration_loop powf rnd fuel k s = some s1 →
      s1.trace.length = s.trace.length + k * s.aco.num_ants
  | 0, s, s1, h => by
    simp only [iteration_loop, Option.some.injEq] at h
    rw [← h]
    simp
  | k + 1, s, s1, h => by
    unfold iteration_loop at h
    cases ht : iteration powf rnd fuel s with
    | none => simp [ht] at h
    | some s2 =>
      simp only [ht] at h
      obtain ⟨h1, h2⟩ := iteration_trace powf rnd fuel s s2 ht
      rw [iteration_loop_trace powf rnd fuel k s2 s1 h, h1, h2]
      ring

/-- C5 as stated fails: the initial `best_ant.cost` is `(float) INT_MAX = 2147483648`, not
+infinity. On the four-node instance with all distances 540000000 (unit demands, capacity 5,
draws 1/2, the rounding `powf32`) the scores are positive `float` numbers, also at the
lowest pheromone level, the tour 0 2 1 3 0 is constructed and its stored cost is
2160000000, which is not below 2147483648: `best_ant` is never replaced and is none of the
tours constructed. -/
theorem C5_initial_best_cost_is_float_INT_MAX :
    (start_colony heavy_instance).best_ant = ⟨[], 2147483648⟩ ∧
      0 < powf32 (1 / (heavy_instance.graph 0 1 : ℚ)) heavy_instance.beta ∧
      0 < round32 (powf32 (heavy_instance.pheromone_min) heavy_instance.alpha
          * powf32 (1 / (heavy_instance.graph 0 1 : ℚ)) heavy_instance.beta) ∧
      (run heavy_instance powf32 half_draws 6).map (fun s => (s.best_ant, s.trace))
        = some (⟨[], 2147483648⟩, [⟨[0, 2, 1, 3, 0], 2160000000⟩]) ∧
      (⟨[], 2147483648⟩ : Ant) ∉ [(⟨[0, 2, 1, 3, 0], 2160000000⟩ : Ant)] := by
  refine ⟨by decide!, by decide!, by decide!, by decide!, by decide!⟩

/-- C5, amended: the initial `best_ant.cost` is `(float) INT_MAX = 2147483648`. When a run
of `max_min_aco` returns and some tour constructed in it has a stored cost below
2147483648, the ants constructed are `num_iterations * num_ants` in number and `best_ant`
is one of them, strictly cheaper than every ant constructed before it and at most as
expensive as every ant constructed after it (costs as stored, in `float`). -/
theorem C5_best_is_first_cheapest (aco : MaxMinACO) (powf : ℚ → ℚ → ℚ) (rnd : Nat → ℚ)
    (fuel : Nat) (s : Colony) (hrun : run aco powf rnd fuel = some s)
    (hlt : ∃ a ∈ s.trace, a.cost < 2147483648) :
    (start_colony aco).best_ant.cost = 2147483648 ∧
      s.trace.length = aco.num_iterations * aco.num_ants ∧
      ∃ pre post, s.trace = pre ++ s.best_ant :: post ∧
        (∀ a ∈ pre, s.best_ant.cost < a.cost) ∧ (∀ a ∈ post, s.best_ant.cost ≤ a.cost) := by
  unfold run at hrun
  refine ⟨round32_INT_MAX, ?_, ?_⟩
  · rw [iteration_loop_trace powf rnd fuel _ _ s hrun]
    simp [start_colony, initialize_pheromone]
  · rcases bestInv_iteration_loop powf rnd fuel _ _ s hrun (bestInv_start aco) with
      ⟨-, hall⟩ | h
    · obtain ⟨a, ha, hlt1⟩ := hlt
      rw [round32_INT_MAX] at hall
      exact absurd (hall a ha) (not_le.2 hlt1)
    · exact h

theorem small_scenario_first_ant :
    construct_solution (initialize_pheromone small_scenario) powf_int half_draws 6 0
      = some (⟨[0, 1, 2, 3, 0], 12⟩, 3) := by
  decide!

theorem small_scenario_run :
    run small_scenario powf_int half_draws 6 = some small_scenario_end := by
  have h := small_scenario_first_ant
  have hn : (initialize_pheromone small_scenario).num_ants = 1 := rfl
  have hk : small_scenario.num_iterations = 1 := rfl
  simp only [run, hk, iteration_loop, iteration, start_colony, hn, ant_loop, ant_turn, h,
    round32_INT_MAX]
  simp [small_scenario_end]
  norm_num

/-- Witness of C5 on the scenario with one ant and one iteration. -/
theorem C5_best_is_first_cheapest_witness :
    (start_colony small_scenario).best_ant.cost = 2147483648 ∧
      small_scenario_end.trace.length
        = small_scenario.num_iterations * small_scenario.num_ants ∧
      ∃ pre post, small_scenario_end.trace = pre ++ small_scenario_end.best_ant :: post ∧
        (∀ a ∈ pre, small_scenario_end.best_ant.cost < a.cost) ∧
        (∀ a ∈ post, small_scenario_end.best_ant.cost ≤ a.cost) :=
  C5_best_is_first_cheapest small_scenario powf_int half_draws 6 small_scenario_end
    small_scenario_run ⟨⟨[0, 1, 2, 3, 0], 12⟩, by simp [small_scenario_end], by norm_num⟩

theorem iteration_loop_succ (powf : ℚ → ℚ → ℚ) (rnd : Nat → ℚ) (fuel : Nat) :
    ∀ (k : Nat) (s : Colony),
      iteration_loop powf rnd fuel (k + 1) s =
        match iteration_loop powf rnd fuel k s with
        | none => none
        | some t => iteration powf rnd fuel t
  | 0, s => by
    simp only [iteration_loop]
    cases iteration powf rnd fuel s <;> rfl
  | k + 1, s => by
    rw [iteration_loop]
    cases hi : iteration powf rnd fuel s with
    | none => simp only [iteration_loop, hi]
    | some s1 =>
      simp only
      rw [iteration_loop_succ powf rnd fuel k s1]
      conv_rhs => rw [iteration_loop]
      simp only [hi]

/-- C6: the cost of `best_ant` never grows in a run of `max_min_aco`: its value after
iteration `k + 1` of the outer loop is at most its value after iteration `k`, and from any
state its value after an ant has constructed its solution is at most its value before. -/
theorem C6_best_cost_non_increasing (aco : MaxMinACO) (powf : ℚ → ℚ → ℚ) (rnd : Nat → ℚ)
    (fuel k : Nat) (t t1 s s1 : Colony)
    (hk : iteration_loop powf rnd fuel k (start_colony aco) = some t)
    (hk1 : iteration_loop powf rnd fuel (k + 1) (start_colony aco) = some t1)
    (hant : ant_turn powf rnd fuel s = some s1) :
    t1.best_ant.cost ≤ t.best_ant.cost ∧ s1.best_ant.cost ≤ s.best_ant.cost := by
  rw [iteration_loop_succ, hk] at hk1
  exact ⟨iteration_cost_le powf rnd fuel t t1 hk1, (ant_turn_cost_le powf rnd fuel s s1 hant).1⟩

theorem small_scenario_ant_turn :
    ant_turn powf_int half_draws 6 (start_colony small_scenario) = some small_scenario_mid := by
  have h := small_scenario_first_ant
  simp only [start_colony, ant_turn, h, round32_INT_MAX]
  simp [small_scenario_mid]
  norm_num

/-- Witness of C6 on the scenario with one ant and one iteration: the cost of `best_ant`
falls from its initial value to 12. -/
theorem C6_best_cost_non_increasing_witness :
    small_scenario_end.best_ant.cost ≤ (start_colony small_scenario).best_ant.cost ∧
      small_scenario_mid.best_ant.cost ≤ (start_colony small_scenario).best_ant.cost :=
  C6_best_cost_non_increasing small_scenario powf_int half_draws 6 0
    (start_colony small_scenario) small_scenario_end (start_colony small_scenario)
    small_scenario_mid rfl small_scenario_run small_scenario_ant_turn

/-- C7: in the scenario, the ant with the complete tour 0 1 2 3 0 of cost 12 deposits on the
edges (0,1), (1,2) and (2,3) only: the deposit loop runs over `i < num_nodes - 1`, so the
entry of the final return (3,0) is the evaporated value 5, not the 5 + 1/12 that a deposit
on every edge of the complete tour gives. -/
theorem C7_final_return_gets_no_deposit :
    construct_solution (initialize_pheromone small_scenario) powf_int half_draws 6 0
        = some (⟨[0, 1, 2, 3, 0], 12⟩, 3) ∧
      (update_pheromones (initialize_pheromone small_scenario)
        [⟨[0, 1, 2, 3, 0], 12⟩]).pheromone 2 3 = 61 / 12 ∧
      (update_pheromones (initialize_pheromone small_scenario)
        [⟨[0, 1, 2, 3, 0], 12⟩]).pheromone 3 0 = 5 ∧
      deposit_formula (initialize_pheromone small_scenario) [⟨[0, 1, 2, 3, 0], 12⟩] 3 0
        = 61 / 12 := by
  refine ⟨by decide!, by decide!, by decide!, by decide!⟩

/-- C10: on the three-node instance with demands 0, 3, 3 and capacity 5 the best tour is
0 1 0 2 0 (two routes), and `max_min_aco` prints the entries 0 1 0 2 only: the print loop
runs over `i <= num_nodes`, so the printed sequence ends with customer 2, not with the
depot. -/
theorem C10_printed_tour_is_cut :
    (run two_route_instance powf_int half_draws 4).map (fun s => s.best_ant)
        = some ⟨[0, 1, 0, 2, 0], 4⟩ ∧
      max_min_aco two_route_instance powf_int half_draws 4 = some ([0, 1, 0, 2], 4) ∧
      [0, 1, 0, 2].getLast? = some 2 := by
  refine ⟨by decide!, by decide!, by decide!⟩

/-! ## The order of the deposits -/

theorem min_deposit_twice (M u d : ℚ) (hd : 0 ≤ d) : min M (min M u + d) = min M (u + d) := by
  rcases le_total M u with h | h
  · rw [min_eq_left h, min_eq_left (by linarith), min_eq_left (by linarith)]
  · rw [min_eq_right h]

theorem deposit_comm (M : ℚ) (z : Nat → Nat → ℚ) (a b a1 b1 : Nat) (d d1 : ℚ)
    (hd : 0 ≤ d) (hd1 : 0 ≤ d1) :
    deposit M (deposit M z a b d) a1 b1 d1 = deposit M (deposit M z a1 b1 d1) a b d := by
  funext x y
  simp only [deposit_apply]
  by_cases hsame : a1 = a ∧ b1 = b
  · obtain ⟨rfl, rfl⟩ := hsame
    simp only [and_self, if_true]
    by_cases hxy : x = a1 ∧ y = b1
    · simp only [hxy, and_self, if_true]
      rw [min_deposit_twice M _ d1 hd1, min_deposit_twice M _ d hd]
      congr 1
      ring
    · simp only [hxy, if_false]
  · have hsame1 : ¬ (a = a1 ∧ b = b1) := fun h => hsame ⟨h.1.symm, h.2.symm⟩
    simp only [hsame, hsame1, if_false]
    by_cases hxy : x = a1 ∧ y = b1
    · have hxy1 : ¬ (x = a ∧ y = b) := by
        rintro ⟨h1, h2⟩
        exact hsame ⟨hxy.1.symm.trans h1, hxy.2.symm.trans h2⟩
      simp only [hxy, hxy1, hsame, and_self, if_true, if_false]
    · simp only [hxy, if_false]

theorem foldl_comm_one {α β γ : Type} (f : γ → α → γ) (g : γ → β → γ) (a : α) :
    ∀ (lb : List β) (z : γ), (∀ b ∈ lb, ∀ z, g (f z a) b = f (g z b) a) →
      lb.foldl g (f z a) = f (lb.foldl g z) a
  | [], _, _ => rfl
  | b :: lb, z, h => by
    simp only [List.foldl_cons]
    rw [h b (List.mem_cons_self _ _) z]
    exact foldl_comm_one f g a lb (g z b) (fun b1 hb1 => h b1 (List.mem_cons_of_mem _ hb1))

theorem foldl_comm {α β γ : Type} (f : γ → α → γ) (g : γ → β → γ) (lb : List β) :
    ∀ (la : List α) (z : γ), (∀ a ∈ la, ∀ b ∈ lb, ∀ z, g (f z a) b = f (g z b) a) →
      lb.foldl g (la.foldl f z) = la.foldl f (lb.foldl g z)
  | [], _, _ => rfl
  | a :: la, z, h => by
    simp only [List.foldl_cons]
    rw [foldl_comm f g lb la (f z a) (fun a1 ha1 => h a1 (List.mem_cons_of_mem _ ha1)),
      foldl_comm_one f g a lb z (h a (List.mem_cons_self _ _))]

theorem deposit_ant_comm (aco : MaxMinACO) (z : Nat → Nat → ℚ) (x y : Ant)
    (hx : 0 < x.cost) (hy : 0 < y.cost) :
    deposit_ant aco (deposit_ant aco z x) y = deposit_ant aco (deposit_ant aco z y) x := by
  unfold deposit_ant
  refine foldl_comm (deposit_edge aco x) (deposit_edge aco y) _ _ z ?_
  intro i _ k _ z1
  unfold deposit_edge
  exact deposit_comm _ _ _ _ _ _ _ _ (le_of_lt (one_div_pos.2 hx)) (le_of_lt (one_div_pos.2 hy))

/-- C8: for ants of strictly positive cost, `update_pheromones` yields the same pheromone
matrix (and the same struct) for every permutation of the array of its `num_ants` ants. -/
theorem C8_deposit_order_irrelevant (aco : MaxMinACO) (ants ants1 : List Ant)
    (hlen : ants.length = aco.num_ants) (hcost : ∀ ant ∈ ants, 0 < ant.cost)
    (hperm : ants.Perm ants1) :
    update_pheromones aco ants = update_pheromones aco ants1 := by
  have hlen1 : ants1.length = aco.num_ants := by rw [← hperm.length_eq, hlen]
  unfold update_pheromones
  rw [List.take_of_length_le (le_of_eq hlen), List.take_of_length_le (le_of_eq hlen1)]
  congr 1
  exact List.Perm.foldl_eq' hperm
    (fun x hx y hy z => deposit_ant_comm aco z x y (hcost x hx) (hcost y hy)) _

/-- Witness of C8: two ants of the scenario with the tours 0 1 2 3 0 and 0 3 2 1 0, in
either order. -/
theorem C8_deposit_order_irrelevant_witness :
    update_pheromones { scenario with num_ants := 2 }
        [⟨[0, 1, 2, 3, 0], 12⟩, ⟨[0, 3, 2, 1, 0], 12⟩]
      = update_pheromones { scenario with num_ants := 2 }
        [⟨[0, 3, 2, 1, 0], 12⟩, ⟨[0, 1, 2, 3, 0], 12⟩] :=
  C8_deposit_order_irrelevant { scenario with num_ants := 2 }
    [⟨[0, 1, 2, 3, 0], 12⟩, ⟨[0, 3, 2, 1, 0], 12⟩] [⟨[0, 3, 2, 1, 0], 12⟩, ⟨[0, 1, 2, 3, 0], 12⟩]
    rfl (by simp) (List.Perm.swap _ _ _)

/-! ## Instances with a customer that demands more than the capacity -/

/-- C17 as stated fails, in two ways. With the only customer at distance `INT_MAX` (demand
1, capacity 5, pheromone 10, `alpha = 1`, `beta = 5`, draws 1/2) the claim's conditions hold,
but the power `(1 / INT_MAX) ^ 5` rounds to the `float` 0 and the score of the customer is
0: every execution of the loop body appends a depot entry, the condition `num_unvisited > 0`
holds after each of them, and the loop ends within no number of iterations. And on the
instance of 52 nodes with unit distances, unit demands and capacity 1, which meets the
conditions too and has the scores 10, the loop writes beyond the `MAX_NODES` entries of
`tour` before its condition fails: after 99 executions of the body `tour[0 .. 99]` is
written and a customer is still unvisited, so that the next execution writes `tour[100]`. -/
theorem C17_loop_does_not_end :
    ((∀ j, 1 ≤ j → j < far_instance.num_nodes →
        far_instance.demand j ≤ far_instance.vehicle_capacity) ∧
      (∀ i j, i ≠ j → 0 < far_instance.graph i j) ∧
      (∀ i j, 0 < far_instance.pheromone i j)) ∧
    (∀ k, 0 ≤ half_draws k ∧ half_draws k ≤ 1) ∧
    powf32 (1 / (far_instance.graph 0 1 : ℚ)) far_instance.beta = 0 ∧
    (∀ n,
      0 < ((loop_body far_instance powf32 half_draws)^[n]
          (start_walk far_instance 0)).num_unvisited ∧
      ((loop_body far_instance powf32 half_draws)^[n] (start_walk far_instance 0)).tour
        = List.replicate (n + 1) 0) ∧
    (∀ fuel, while_loop far_instance powf32 half_draws fuel (start_walk far_instance 0)
      = none) ∧
    ((∀ j, 1 ≤ j → j < (crowded_instance 52).num_nodes →
        (crowded_instance 52).demand j ≤ (crowded_instance 52).vehicle_capacity) ∧
      (∀ i j, i ≠ j → 0 < (crowded_instance 52).graph i j) ∧
      (∀ i j, 0 < (crowded_instance 52).pheromone i j) ∧
      (∀ i j, i ≠ j → score (crowded_instance 52) powf_int i j = 10)) ∧
    (0 < ((loop_body (crowded_instance 52) powf_int half_draws)^[99]
          (start_walk (crowded_instance 52) 0)).num_unvisited ∧
      ((loop_body (crowded_instance 52) powf_int half_draws)^[99]
          (start_walk (crowded_instance 52) 0)).tour.length = MAX_NODES) ∧
    (∀ fuel, while_loop (crowded_instance 52) powf_int half_draws fuel
      (start_walk (crowded_instance 52) 0) = none) :=
  ⟨far_feasible, fun k => ⟨(half_draws_range k).1, le_of_lt (half_draws_range k).2⟩,
    far_power_underflows, fun n => (far_iterate half_draws 0 n).2,
    fun fuel => far_while_loop half_draws fuel _ ⟨rfl, Nat.zero_lt_one⟩, crowded_feasible 52,
    crowd_iterate_unvisited (crowded_instance 52) powf_int half_draws 0 99 (by decide)
      (by decide) (fun j hj _ => crowded_demand_pos 52 j hj)
      (fun j k hj _ hk _ => crowded_demand_pair 52 j k hj hk) half_draws_pos,
    fun fuel => crowded_no_loop_end (crowded_instance 52) powf_int half_draws fuel 0
      (by decide) (fun j hj _ => crowded_demand_pos 52 j hj)
      (fun j k hj _ hk _ => crowded_demand_pair 52 j k hj hk) half_draws_pos⟩

/-- C17, amended: on an instance of at most `MAX_NODES / 2` nodes in which no customer
demands more than the capacity, with positive distances between distinct nodes and positive
pheromone, whose scores between distinct nodes all lie in the range from `FLT_MIN` to
`2 ^ 100` (they neither underflow, nor does their sum overflow), and for draws in [0,1],
the `while` loop of `construct_solution` ends after `n` executions of its body for some
`n ≤ 2 * (num_nodes - 1)`, all its writes lying within `tour`: the condition
`num_unvisited > 0` holds before each of the first `n` executions and fails after the
`n`-th. -/
theorem C17_loop_ends_within_bound (aco : MaxMinACO) (powf : ℚ → ℚ → ℚ) (rnd : Nat → ℚ)
    (calls : Nat)
    (hscore : ∀ i j, i < aco.num_nodes → j < aco.num_nodes → i ≠ j →
      FLT_MIN ≤ score aco powf i j ∧ score aco powf i j ≤ 2 ^ 100)
    (hbuf : 2 * aco.num_nodes ≤ MAX_NODES)
    (hdem : ∀ j, 1 ≤ j → j < aco.num_nodes → aco.demand j ≤ aco.vehicle_capacity)
    (hdist : ∀ i j, i < aco.num_nodes → j < aco.num_nodes → i ≠ j → 0 < aco.graph i j)
    (hph : ∀ i j, i < aco.num_nodes → j < aco.num_nodes → 0 < aco.pheromone i j)
    (hrnd : ∀ k, 0 ≤ rnd k ∧ rnd k ≤ 1) :
    ∃ n w, n ≤ 2 * (aco.num_nodes - 1) ∧
      while_loop aco powf rnd (2 * (aco.num_nodes - 1)) (start_walk aco calls) = some w ∧
      w = (loop_body aco powf rnd)^[n] (start_walk aco calls) ∧
      w.num_unvisited = 0 ∧
      ∀ m, m < n → 0 < ((loop_body aco powf rnd)^[m] (start_walk aco calls)).num_unvisited := by
  obtain ⟨w, hw, -, -⟩ := while_loop_terminates aco powf rnd
    (servable_of_range aco powf hscore hdem hdist hph)
    (fun k => (hrnd k).2) (2 * (aco.num_nodes - 1)) (start_walk aco calls)
    (visitInv_start aco calls) (by rw [remaining_start]) (buffer_start aco calls hbuf)
  obtain ⟨n, hle, hn, h0, hall⟩ := while_loop_iterate aco powf rnd _ _ w hw
  exact ⟨n, w, hle, hw, hn, h0, hall⟩

/-- Witness of C17 on the four-node scenario with the draws 1/2. -/
theorem C17_loop_ends_within_bound_witness :
    ∃ n w, n ≤ 2 * (scenario.num_nodes - 1) ∧
      while_loop scenario powf_int half_draws (2 * (scenario.num_nodes - 1))
        (start_walk scenario 0) = some w ∧
      w = (loop_body scenario powf_int half_draws)^[n] (start_walk scenario 0) ∧
      w.num_unvisited = 0 ∧
      ∀ m, m < n →
        0 < ((loop_body scenario powf_int half_draws)^[m] (start_walk scenario 0)).num_unvisited :=
  C17_loop_ends_within_bound scenario powf_int half_draws 0
    scenario_scores (by decide)
    scenario_servable.2.1 scenario_servable.2.2.1 scenario_servable.2.2.2
    (fun _ => by norm_num [half_draws])

/-! ## The roulette wheel -/

/-- C14: on the three-node instance with demands 0, 10, 1 and capacity 5 and the draws
0, 0, ... (all in [0,1)), the first selection step gives customer 1 the score 0, since its
demand 10 exceeds the capacity, and yet selects it: with `r = 0` the scan accepts the first
unvisited customer. `construct_solution` returns the tour 0 1 0 2 0, which holds
customer 1. -/
theorem C14_customer_beyond_capacity_selected :
    (∀ k, 0 ≤ zero_draws k ∧ zero_draws k < 1) ∧
      oversize_instance.vehicle_capacity < oversize_instance.demand 1 ∧
      probability oversize_instance powf_int (start_walk oversize_instance 0) 1 = 0 ∧
      0 < total_prob oversize_instance powf_int (start_walk oversize_instance 0) ∧
      next_node oversize_instance powf_int zero_draws (start_walk oversize_instance 0)
        = some 1 ∧
      construct_solution oversize_instance powf_int zero_draws 4 0
        = some ({ tour := [0, 1, 0, 2, 0], cost := 4 }, 2) := by
  refine ⟨fun k => by norm_num [zero_draws], by decide, by decide!, by decide!, by decide!,
    by decide!⟩

/-! ## Instances whose capacity covers all demands -/

theorem sum_filter_update (u : Nat → Bool) (f : Nat → ℤ) (j : Nat) (hu : u j = true) :
    ∀ (l : List Nat), l.Nodup → j ∈ l →
      ((l.filter (fun i => Function.update u j false i)).map f).sum + f j
        = ((l.filter (fun i => u i)).map f).sum
  | [], _, h => by simp at h
  | i :: l, hn, h => by
    obtain ⟨hnot, hn1⟩ := List.nodup_cons.1 hn
    by_cases hij : i = j
    · subst hij
      simp only [List.filter_cons, Function.update_same, hu]
      rw [filter_update_of_not_mem u i l hnot]
      simp
      ring
    · have hj : j ∈ l := by
        rcases List.mem_cons.1 h with e | e
        · exact absurd e.symm hij
        · exact e
      have ih := sum_filter_update u f j hu l hn1 hj
      simp only [List.filter_cons, Function.update_noteq hij]
      by_cases hui : u i = true
      · simp only [hui, if_true, List.map_cons, List.sum_cons]
        linarith
      · simp only [hui]
        simpa using ih

theorem le_sum_filter (u : Nat → Bool) (f : Nat → ℤ) (j : Nat) (hu : u j = true) :
    ∀ (l : List Nat), (∀ i ∈ l, 0 ≤ f i) → j ∈ l →
      f j ≤ ((l.filter (fun i => u i)).map f).sum
  | [], _, h => by simp at h
  | i :: l, hf, h => by
    have hrest : 0 ≤ ((l.filter (fun i => u i)).map f).sum :=
      List.sum_nonneg (by
        intro x hx
        obtain ⟨k, hk, rfl⟩ := List.mem_map.1 hx
        exact hf k (List.mem_cons_of_mem _ (List.mem_filter.1 hk).1))
    rcases List.mem_cons.1 h with rfl | hj
    · simp only [List.filter_cons, hu, if_true, List.map_cons, List.sum_cons]
      linarith
    · have ih := le_sum_filter u f j hu l (fun k hk => hf k (List.mem_cons_of_mem _ hk)) hj
      have hi := hf i (List.mem_cons_self _ _)
      simp only [List.filter_cons]
      split
      · simp only [List.map_cons, List.sum_cons]
        linarith
      · exact ih

theorem exists_unvisited (aco : MaxMinACO) (w : Walk) (hi : VisitInv aco w)
    (hn : 0 < w.num_unvisited) : ∃ j, j ∈ customers aco ∧ w.unvisited j = true := by
  have hnum := hi.2.1
  have hne : (customers aco).filter (fun j => w.unvisited j) ≠ [] := by
    intro he
    rw [he] at hnum
    simp at hnum
    omega
  obtain ⟨j, hj⟩ := List.exists_mem_of_ne_nil _ hne
  exact ⟨j, (List.mem_filter.1 hj).1, (List.mem_filter.1 hj).2⟩

theorem total_prob_pos_of_fit (aco : MaxMinACO) (powf : ℚ → ℚ → ℚ) (w : Walk) (j : Nat)
    (hs : Servable aco powf) (hi : VisitInv aco w) (hjc : j ∈ customers aco)
    (hju : w.unvisited j = true) (hfit : w.load + aco.demand j ≤ aco.vehicle_capacity) :
    0 < total_prob aco powf w := by
  rw [total_prob_eq_sum]
  exact sum_map_pos _ j (probability_pos aco powf w j hs hi hju hfit) _
    (fun i _ => probability_nonneg aco powf w i hs hi) hjc

theorem count_zero_snoc (t : List Nat) (j : Nat) (hj : j ≠ 0) :
    (t ++ [j]).count 0 = t.count 0 := by
  rw [List.count_append]
  have : List.count 0 [j] = 0 := by
    rw [List.count_eq_zero]
    simpa using hj.symm
  omega

theorem singleInv_start (aco : MaxMinACO) (calls : Nat) (hN : 1 ≤ aco.num_nodes)
    (hcap : ((customers aco).map aco.demand).sum ≤ aco.vehicle_capacity) :
    SingleInv aco (start_walk aco calls) := by
  refine ⟨visitInv_start aco calls, ?_, by simp [start_walk], ?_⟩
  · have h : (customers aco).filter (fun j => (start_walk aco calls).unvisited j)
        = customers aco := by
      rw [List.filter_eq_self]
      intro j hj
      have := (mem_customers aco j).1 hj
      simp [start_walk, this.1, this.2]
    rw [h]
    simpa [start_walk] using hcap
  · simp only [start_walk, List.length_singleton]
    omega

theorem singleInv_loop_body (aco : MaxMinACO) (powf : ℚ → ℚ → ℚ) (rnd : Nat → ℚ)
    (hs : Servable aco powf)
    (hnonneg : ∀ j, 1 ≤ j → j < aco.num_nodes → 0 ≤ aco.demand j)
    (hr : ∀ k, rnd k ≤ 1) (w : Walk) (hi : SingleInv aco w) (hn : 0 < w.num_unvisited) :
    SingleInv aco (loop_body aco powf rnd w) := by
  obtain ⟨hv, hslack, hc0, hlen⟩ := hi
  have hnn : ∀ i ∈ customers aco, 0 ≤ aco.demand i := fun i hi =>
    hnonneg i ((mem_customers aco i).1 hi).1 ((mem_customers aco i).1 hi).2
  obtain ⟨j0, hj0c, hj0u⟩ := exists_unvisited aco w hv hn
  have hfit0 : w.load + aco.demand j0 ≤ aco.vehicle_capacity := by
    have := le_sum_filter w.unvisited aco.demand j0 hj0u (customers aco) hnn hj0c
    linarith
  obtain ⟨j, hj⟩ := next_node_of_total_pos aco powf rnd w
    (total_prob_pos_of_fit aco powf w j0 hs hv hj0c hj0u hfit0) (hr _)
  obtain ⟨hjc, hju⟩ := next_node_some aco powf rnd w j hj
  have hj1 := (mem_customers aco j).1 hjc
  rw [loop_body_of_some aco powf rnd w j hj]
  obtain ⟨hv1, hnu⟩ := visitInv_select aco w j _
    (w.load + aco.demand j) (calls_after aco powf w) hv hjc hju
  refine ⟨hv1, ?_, ?_, ?_⟩
  · have := sum_filter_update w.unvisited aco.demand j hju (customers aco)
      (nodup_customers aco) hjc
    simp only
    linarith
  · simp only
    rw [count_zero_snoc w.tour j (by omega)]
    exact hc0
  · simp only [List.length_append, List.length_singleton]
    omega

theorem sum_demand_bound (aco : MaxMinACO)
    (hnonneg : ∀ j, 1 ≤ j → j < aco.num_nodes → 0 ≤ aco.demand j)
    (hcap : ((customers aco).map aco.demand).sum ≤ aco.vehicle_capacity) (j : Nat)
    (h1 : 1 ≤ j) (h2 : j < aco.num_nodes) : aco.demand j ≤ aco.vehicle_capacity := by
  have hnn : ∀ i ∈ customers aco, 0 ≤ aco.demand i := fun i hi =>
    hnonneg i ((mem_customers aco i).1 hi).1 ((mem_customers aco i).1 hi).2
  have := le_sum_filter (fun _ => true) aco.demand j rfl (customers aco) hnn
    ((mem_customers aco j).2 ⟨h1, h2⟩)
  simp only [List.filter_true] at this
  linarith

/-- On an instance whose capacity covers all demands the loop ends within the buffer as
soon as `num_nodes` entries fit. -/
theorem single_loop_ends (aco : MaxMinACO) (powf : ℚ → ℚ → ℚ) (rnd : Nat → ℚ)
    (hs : Servable aco powf)
    (hnonneg : ∀ j, 1 ≤ j → j < aco.num_nodes → 0 ≤ aco.demand j)
    (hr : ∀ k, rnd k ≤ 1) (hbuf : aco.num_nodes < MAX_NODES) :
    ∀ (fuel : Nat) (w : Walk), SingleInv aco w → w.num_unvisited ≤ fuel →
      ∃ w1, while_loop aco powf rnd fuel w = some w1 ∧ SingleInv aco w1 ∧ w1.num_unvisited = 0
  | 0, w, hi, hf => by
    have h0 : w.num_unvisited = 0 := by omega
    exact ⟨w, by simp [while_loop, h0], hi, h0⟩
  | fuel + 1, w, hi, hf => by
    by_cases hn : 0 < w.num_unvisited
    · have hi1 := singleInv_loop_body aco powf rnd hs hnonneg hr w hi hn
      have hlen := tour_length_loop_body aco powf rnd w
      have h1 := hi.2.2.2
      have h2 := hi1.2.2.2
      obtain ⟨w1, g1, g2, g3⟩ := single_loop_ends aco powf rnd hs hnonneg hr hbuf fuel
        (loop_body aco powf rnd w) hi1 (by omega)
      refine ⟨w1, ?_, g2, g3⟩
      unfold while_loop
      rw [if_pos hn, if_pos (by omega)]
      exact g1
    · have h0 : w.num_unvisited = 0 := by omega
      exact ⟨w, by simp [while_loop, h0], hi, h0⟩

theorem roomy_capacity (n : Nat) :
    (∀ j, 1 ≤ j → j < (roomy_instance n).num_nodes → 0 ≤ (roomy_instance n).demand j) ∧
      ((customers (roomy_instance n)).map (roomy_instance n).demand).sum
        ≤ (roomy_instance n).vehicle_capacity ∧
      (∀ i j, i ≠ j → 0 < (roomy_instance n).graph i j) ∧
      (∀ i j, 0 < (roomy_instance n).pheromone i j) ∧
      (∀ i j, i ≠ j → score (roomy_instance n) powf_int i j = 10) := by
  refine ⟨?_, ?_, ?_, ?_, ?_⟩
  · intro j hj _
    have hj0 : j ≠ 0 := by omega
    simp [roomy_instance, hj0]
  · have hle : ∀ (l : List Nat), (l.map (roomy_instance n).demand).sum ≤ (l.length : ℤ) := by
      intro l
      induction l with
      | nil => simp
      | cons x xs ih =>
        have hx : (roomy_instance n).demand x ≤ 1 := by
          simp only [roomy_instance]
          split <;> decide
        simp only [List.map_cons, List.sum_cons, List.length_cons]
        push_cast
        linarith
    have h := hle (customers (roomy_instance n))
    have hlen : (customers (roomy_instance n)).length = n - 1 := by
      simp [customers, roomy_instance]
    rw [hlen] at h
    have hc : (roomy_instance n).vehicle_capacity = (n : ℤ) := rfl
    rw [hc]
    have : ((n - 1 : Nat) : ℤ) ≤ (n : ℤ) := by omega
    linarith
  · intro i j hne
    simp [roomy_instance, hne]
  · intro i j
    simp [roomy_instance]
  · intro i j hne
    simp [score, roomy_instance, hne, powf_int]

theorem single_iterate (aco : MaxMinACO) (powf : ℚ → ℚ → ℚ) (rnd : Nat → ℚ) (calls : Nat)
    (hN : 1 ≤ aco.num_nodes) (hs : Servable aco powf)
    (hnonneg : ∀ j, 1 ≤ j → j < aco.num_nodes → 0 ≤ aco.demand j)
    (hcap : ((customers aco).map aco.demand).sum ≤ aco.vehicle_capacity)
    (hr : ∀ k, rnd k ≤ 1) :
    ∀ (n : Nat), n + 1 ≤ aco.num_nodes →
      SingleInv aco ((loop_body aco powf rnd)^[n] (start_walk aco calls)) ∧
      ((loop_body aco powf rnd)^[n] (start_walk aco calls)).tour.length = n + 1
  | 0, _ => ⟨singleInv_start aco calls hN hcap, rfl⟩
  | n + 1, hn => by
    obtain ⟨h1, h2⟩ := single_iterate aco powf rnd calls hN hs hnonneg hcap hr n (by omega)
    have h3 := h1.2.2.2
    rw [Function.iterate_succ_apply']
    exact ⟨singleInv_loop_body aco powf rnd hs hnonneg hr _ h1 (by omega),
      by rw [tour_length_loop_body, h2]⟩

/-- On the instance of 100 nodes whose capacity covers all demands the loop ends after 99
executions of its body with `tour[0 .. 99]` written, so that the final write of the depot
goes to `tour[100]`. -/
theorem roomy_100_walk :
    (∀ m, m < 99 →
      0 < ((loop_body (roomy_instance 100) powf_int half_draws)^[m]
          (start_walk (roomy_instance 100) 0)).num_unvisited) ∧
    ((loop_body (roomy_instance 100) powf_int half_draws)^[99]
        (start_walk (roomy_instance 100) 0)).num_unvisited = 0 ∧
    ((loop_body (roomy_instance 100) powf_int half_draws)^[99]
        (start_walk (roomy_instance 100) 0)).tour.length = MAX_NODES := by
  have hs : Servable (roomy_instance 100) powf_int :=
    servable_of_pos (roomy_instance 100) powf_int powf_int_pos
      (sum_demand_bound (roomy_instance 100) (roomy_capacity 100).1 (roomy_capacity 100).2.1)
      (fun i j _ _ hne => (roomy_capacity 100).2.2.1 i j hne)
      (fun i j _ _ => (roomy_capacity 100).2.2.2.1 i j)
  have h := single_iterate (roomy_instance 100) powf_int half_draws 0 (by decide) hs
    (roomy_capacity 100).1 (roomy_capacity 100).2.1
    (fun k => le_of_lt (half_draws_range k).2)
  have hN : (roomy_instance 100).num_nodes = 100 := rfl
  refine ⟨fun m hm => ?_, ?_, (h 99 (by decide)).2⟩
  · obtain ⟨⟨-, -, -, h1⟩, h2⟩ := h m (by rw [hN]; omega)
    omega
  · obtain ⟨⟨-, -, -, h1⟩, h2⟩ := h 99 (by decide)
    omega

/-- C11 as stated fails, in two ways. With the only customer at distance `INT_MAX` (demand
1, capacity 5, pheromone 10, `alpha = 1`, `beta = 5`, draws 1/2) the claim's conditions hold,
but the power `(1 / INT_MAX) ^ 5` rounds to the `float` 0, the score of the customer is 0,
and the loop makes forced returns to the depot only: no tour is returned. And on the
instance of 100 nodes with unit distances, unit demands and capacity 100, which meets the
conditions too and has the scores 10, the 101 entries of the single route do not fit into
`tour`: the loop ends after 99 executions of its body with `tour[0 .. 99]` written, and the
final write of the depot goes to `tour[100]`. -/
theorem C11_no_single_route :
    ((∀ j, 1 ≤ j → j < far_instance.num_nodes → 0 ≤ far_instance.demand j) ∧
      ((customers far_instance).map far_instance.demand).sum ≤ far_instance.vehicle_capacity ∧
      (∀ i j, i ≠ j → 0 < far_instance.graph i j) ∧
      (∀ i j, 0 < far_instance.pheromone i j)) ∧
    powf32 (1 / (far_instance.graph 0 1 : ℚ)) far_instance.beta = 0 ∧
    (∀ fuel,
      (loop_body far_instance powf32 half_draws (start_walk far_instance 0)).tour = [0, 0] ∧
      construct_solution far_instance powf32 half_draws fuel 0 = none) ∧
    ((∀ j, 1 ≤ j → j < (roomy_instance 100).num_nodes → 0 ≤ (roomy_instance 100).demand j) ∧
      ((customers (roomy_instance 100)).map (roomy_instance 100).demand).sum
        ≤ (roomy_instance 100).vehicle_capacity ∧
      (∀ i j, i ≠ j → 0 < (roomy_instance 100).graph i j) ∧
      (∀ i j, 0 < (roomy_instance 100).pheromone i j) ∧
      (∀ i j, i ≠ j → score (roomy_instance 100) powf_int i j = 10)) ∧
    ((∀ m, m < 99 →
        0 < ((loop_body (roomy_instance 100) powf_int half_draws)^[m]
            (start_walk (roomy_instance 100) 0)).num_unvisited) ∧
      ((loop_body (roomy_instance 100) powf_int half_draws)^[99]
          (start_walk (roomy_instance 100) 0)).num_unvisited = 0 ∧
      ((loop_body (roomy_instance 100) powf_int half_draws)^[99]
          (start_walk (roomy_instance 100) 0)).tour.length = MAX_NODES) ∧
    (∀ fuel, construct_solution (roomy_instance 100) powf_int half_draws fuel 0 = none) := by
  refine ⟨⟨?_, by decide, far_feasible.2.1, far_feasible.2.2⟩, far_power_underflows,
    fun fuel => ⟨(far_iterate half_draws 0 1).2.2, far_no_tour half_draws fuel 0⟩,
    roomy_capacity 100, roomy_100_walk,
    fun fuel => construct_solution_overrun (roomy_instance 100) powf_int half_draws fuel 0
      (le_refl _)⟩
  intro j _ _
  simp only [far_instance]
  split <;> decide

/-- C11, amended: on an instance with a depot and fewer than `MAX_NODES` nodes, with
non-negative demands and a capacity of at least the sum of all customer demands, with
positive distances between distinct nodes and positive pheromone, whose scores between
distinct nodes all lie in the range from `FLT_MIN` to `2 ^ 100` (they neither underflow, nor
does their sum overflow), and for draws in [0,1], `construct_solution` returns a tour of
exactly one route: it has `num_nodes + 1` entries, starts and ends with the depot, and holds
the depot twice, so as its first and last entry only. -/
theorem C11_capacity_for_all_one_route (aco : MaxMinACO) (powf : ℚ → ℚ → ℚ) (rnd : Nat → ℚ)
    (fuel calls : Nat) (hN : 1 ≤ aco.num_nodes)
    (hscore : ∀ i j, i < aco.num_nodes → j < aco.num_nodes → i ≠ j →
      FLT_MIN ≤ score aco powf i j ∧ score aco powf i j ≤ 2 ^ 100)
    (hbuf : aco.num_nodes < MAX_NODES)
    (hnonneg : ∀ j, 1 ≤ j → j < aco.num_nodes → 0 ≤ aco.demand j)
    (hcap : ((customers aco).map aco.demand).sum ≤ aco.vehicle_capacity)
    (hdist : ∀ i j, i < aco.num_nodes → j < aco.num_nodes → i ≠ j → 0 < aco.graph i j)
    (hph : ∀ i j, i < aco.num_nodes → j < aco.num_nodes → 0 < aco.pheromone i j)
    (hrnd : ∀ k, 0 ≤ rnd k ∧ rnd k ≤ 1)
    (hfuel : 2 * (aco.num_nodes - 1) ≤ fuel) :
    ∃ ant calls1, construct_solution aco powf rnd fuel calls = some (ant, calls1) ∧
      ant.tour.length = aco.num_nodes + 1 ∧
      ant.tour.head? = some 0 ∧ ant.tour.getLast? = some 0 ∧
      ant.tour.count 0 = 2 ∧ num_routes ant.tour = 1 := by
  have hs : Servable aco powf :=
    servable_of_range aco powf hscore (sum_demand_bound aco hnonneg hcap) hdist hph
  obtain ⟨w, hw, ⟨hv, -, hc0, hlen⟩, h0⟩ := single_loop_ends aco powf rnd hs hnonneg
    (fun k => (hrnd k).2) hbuf fuel (start_walk aco calls) (singleInv_start aco calls hN hcap)
    (by simp only [start_walk]; omega)
  have hcount : (w.tour ++ [0]).count 0 = 2 := by
    rw [List.count_append, hc0]
    simp
  refine ⟨_, _, construct_solution_of_loop aco powf rnd fuel calls w hw (by omega), ?_, ?_,
    by simp, hcount, ?_⟩
  · simp only [List.length_append, List.length_singleton]
    omega
  · have hhead := hv.2.2.1
    cases ht : w.tour with
    | nil => simp [ht] at hhead
    | cons a t =>
      rw [ht] at hhead
      simpa using hhead
  · simp only [num_routes, hcount]

/-- Witness of C11 on the four-node scenario, whose capacity 9 is the sum of the demands. -/
theorem C11_capacity_for_all_one_route_witness :
    ∃ ant calls1, construct_solution scenario powf_int half_draws 6 0 = some (ant, calls1) ∧
      ant.tour.length = scenario.num_nodes + 1 ∧
      ant.tour.head? = some 0 ∧ ant.tour.getLast? = some 0 ∧
      ant.tour.count 0 = 2 ∧ num_routes ant.tour = 1 :=
  C11_capacity_for_all_one_route scenario powf_int half_draws 6 0 (by decide)
    scenario_scores (by decide)
    (fun j _ _ => by simp only [scenario]; split_ifs <;> decide)
    (by decide) scenario_servable.2.2.1 scenario_servable.2.2.2
    (fun _ => by norm_num [half_draws]) (by decide)

/-! ## The routes of a tour -/

theorem load_of_forced_return (aco : MaxMinACO) (powf : ℚ → ℚ → ℚ) (rnd : Nat → ℚ) (w : Walk)
    (hs : Servable aco powf) (hr : ∀ k, rnd k ≤ 1) (hi : VisitInv aco w)
    (hn : 0 < w.num_unvisited) (hnext : next_node aco powf rnd w = none) : w.load ≠ 0 := by
  intro h0
  obtain ⟨j, hj⟩ := next_node_of_total_pos aco powf rnd w
    (total_prob_pos_of_empty aco powf w hs hi hn h0) (hr _)
  rw [hj] at hnext
  simp at hnext

theorem chain_snoc (R : Nat → Nat → Prop) (t : List Nat) (c x : Nat)
    (hl : t.getLast? = some c) (hc : List.Chain' R t) (h : R c x) :
    List.Chain' R (t ++ [x]) := by
  rw [List.chain'_append]
  refine ⟨hc, List.chain'_singleton x, ?_⟩
  intro a ha b hb
  rw [hl] at ha
  simp only [Option.mem_def, Option.some.injEq] at ha
  simp only [List.head?_cons, Option.mem_def, Option.some.injEq] at hb
  subst ha
  subst hb
  exact h

theorem routeInv_start (aco : MaxMinACO) (calls : Nat) (hN : 2 ≤ aco.num_nodes) :
    RouteInv aco (start_walk aco calls) := by
  refine ⟨visitInv_start aco calls, rfl, fun _ => rfl, ?_, ?_, ?_, ?_⟩
  · simp [start_walk]
  · simp [start_walk]
  · simp only [start_walk, List.count_singleton, if_true]
    simp
    omega
  · simp only [start_walk]
    omega

theorem routeInv_loop_body (aco : MaxMinACO) (powf : ℚ → ℚ → ℚ) (rnd : Nat → ℚ)
    (hs : Servable aco powf) (hr : ∀ k, rnd k ≤ 1) (w : Walk) (hi : RouteInv aco w)
    (hn : 0 < w.num_unvisited) : RouteInv aco (loop_body aco powf rnd w) := by
  obtain ⟨hv, hlast, hload, hchain, hlen, hcnt, hend⟩ := hi
  cases hnext : next_node aco powf rnd w with
  | none =>
    have hl := load_of_forced_return aco powf rnd w hs hr hv hn hnext
    have hcur : w.current_node ≠ 0 := fun h => hl (hload h)
    rw [loop_body_of_none aco powf rnd w hnext]
    refine ⟨visitInv_depot aco w _ _ hv, by simp, fun _ => rfl, ?_, ?_, ?_, ?_⟩
    · exact chain_snoc _ w.tour w.current_node 0 hlast hchain (fun h => hcur h.1)
    · simp only [List.length_append, List.length_singleton, List.count_append,
        List.count_singleton, if_true]
      simp
      omega
    · rw [if_neg hcur] at hcnt
      simp only [List.count_append, List.count_singleton, if_true]
      simp
      omega
    · simp only
      omega
  | some j =>
    obtain ⟨hjc, hju⟩ := next_node_some aco powf rnd w j hnext
    have hj1 := (mem_customers aco j).1 hjc
    have hj0 : j ≠ 0 := by omega
    rw [loop_body_of_some aco powf rnd w j hnext]
    obtain ⟨hv1, hnu⟩ := visitInv_select aco w j _
      (w.load + aco.demand j) (calls_after aco powf w) hv hjc hju
    refine ⟨hv1, by simp, fun h => absurd h hj0, ?_, ?_, ?_, fun _ => hj0⟩
    · exact chain_snoc _ w.tour w.current_node j hlast hchain (fun h => hj0 h.2)
    · simp only [List.length_append, List.length_singleton]
      rw [count_zero_snoc w.tour j hj0]
      omega
    · simp only
      rw [count_zero_snoc w.tour j hj0, if_neg hj0]
      split at hcnt <;> omega

/-- C18 as stated fails, in two ways. With the only customer at distance `INT_MAX` (two
nodes, demand 1, capacity 5, pheromone 10, `alpha = 1`, `beta = 5`, draws 1/2) the claim's
conditions hold, but the power `(1 / INT_MAX) ^ 5` rounds to the `float` 0 and the score of
the customer is 0: the first execution of the loop body writes a depot entry next to the
initial one, and no tour is returned. And on the instance of 51 nodes with unit distances,
unit demands and capacity 1, which meets the conditions too and has the scores 10, every
customer has a route of its own and the `2 * 51 - 1 = 101` entries of the tour do not fit
into the `MAX_NODES` entries of `tour`: the loop executes its body 99 times at least, after
which `tour[0 .. 99]` is written, so that the next write goes to `tour[100]`. -/
theorem C18_adjacent_depots_or_overrun :
    ((∀ j, 1 ≤ j → j < far_instance.num_nodes →
        far_instance.demand j ≤ far_instance.vehicle_capacity) ∧
      (∀ i j, i ≠ j → 0 < far_instance.graph i j) ∧
      (∀ i j, 0 < far_instance.pheromone i j)) ∧
    2 ≤ far_instance.num_nodes ∧
    powf32 (1 / (far_instance.graph 0 1 : ℚ)) far_instance.beta = 0 ∧
    (loop_body far_instance powf32 half_draws (start_walk far_instance 0)).tour = [0, 0] ∧
    (∀ fuel, construct_solution far_instance powf32 half_draws fuel 0 = none) ∧
    ((∀ j, 1 ≤ j → j < (crowded_instance 51).num_nodes →
        (crowded_instance 51).demand j ≤ (crowded_instance 51).vehicle_capacity) ∧
      (∀ i j, i ≠ j → 0 < (crowded_instance 51).graph i j) ∧
      (∀ i j, 0 < (crowded_instance 51).pheromone i j) ∧
      (∀ i j, i ≠ j → score (crowded_instance 51) powf_int i j = 10)) ∧
    MAX_NODES < 2 * (crowded_instance 51).num_nodes - 1 ∧
    ((∀ m, m < 99 →
        0 < ((loop_body (crowded_instance 51) powf_int half_draws)^[m]
            (start_walk (crowded_instance 51) 0)).num_unvisited) ∧
      ((loop_body (crowded_instance 51) powf_int half_draws)^[99]
          (start_walk (crowded_instance 51) 0)).tour.length = MAX_NODES) ∧
    (∀ fuel calls,
      construct_solution (crowded_instance 51) powf_int half_draws fuel calls = none) :=
  ⟨far_feasible, le_refl _, far_power_underflows, (far_iterate half_draws 0 1).2.2,
    fun fuel => far_no_tour half_draws fuel 0, crowded_feasible 51, by decide,
    crowded_51_walk, fun fuel calls => crowded_no_tour (crowded_instance 51) powf_int half_draws fuel calls
      (by decide) (fun j hj _ => crowded_demand_pos 51 j hj)
      (fun j k hj _ hk _ => crowded_demand_pair 51 j k hj hk) half_draws_pos⟩

/-- C18, amended: on an instance with at least two and at most `MAX_NODES / 2` nodes in
which no customer demands more than the capacity, with positive distances between distinct
nodes and positive pheromone, whose scores between distinct nodes all lie in the range from
`FLT_MIN` to `2 ^ 100` (they neither underflow, nor does their sum overflow), and for draws
in [0,1], the tour returned by `construct_solution` has no two adjacent depot entries, its
number of entries is `(num_nodes - 1) + (number of routes) + 1` with at least one and at
most `num_nodes - 1` routes, and so it is at least `num_nodes + 1` and at most
`2 * num_nodes - 1`, which is at most `MAX_NODES`. -/
theorem C18_number_of_tour_entries (aco : MaxMinACO) (powf : ℚ → ℚ → ℚ) (rnd : Nat → ℚ)
    (fuel calls : Nat) (hN : 2 ≤ aco.num_nodes)
    (hscore : ∀ i j, i < aco.num_nodes → j < aco.num_nodes → i ≠ j →
      FLT_MIN ≤ score aco powf i j ∧ score aco powf i j ≤ 2 ^ 100)
    (hbuf : 2 * aco.num_nodes ≤ MAX_NODES)
    (hdem : ∀ j, 1 ≤ j → j < aco.num_nodes → aco.demand j ≤ aco.vehicle_capacity)
    (hdist : ∀ i j, i < aco.num_nodes → j < aco.num_nodes → i ≠ j → 0 < aco.graph i j)
    (hph : ∀ i j, i < aco.num_nodes → j < aco.num_nodes → 0 < aco.pheromone i j)
    (hrnd : ∀ k, 0 ≤ rnd k ∧ rnd k ≤ 1)
    (hfuel : 2 * (aco.num_nodes - 1) ≤ fuel) :
    ∃ ant calls1, construct_solution aco powf rnd fuel calls = some (ant, calls1) ∧
      List.Chain' (fun a b => ¬ (a = 0 ∧ b = 0)) ant.tour ∧
      ant.tour.length = (aco.num_nodes - 1) + num_routes ant.tour + 1 ∧
      1 ≤ num_routes ant.tour ∧ num_routes ant.tour ≤ aco.num_nodes - 1 ∧
      aco.num_nodes + 1 ≤ ant.tour.length ∧ ant.tour.length ≤ 2 * aco.num_nodes - 1 ∧
      2 * aco.num_nodes - 1 ≤ MAX_NODES := by
  have hs : Servable aco powf := servable_of_range aco powf hscore hdem hdist hph
  obtain ⟨w, hw, -, -, hwlen⟩ := while_loop_terminates aco powf rnd hs
    (fun k => (hrnd k).2) fuel (start_walk aco calls) (visitInv_start aco calls)
    (by rw [remaining_start]; exact hfuel) (buffer_start aco calls hbuf)
  obtain ⟨⟨hv, hlast, -, hchain, hlen, hcnt, hend⟩, h0⟩ :=
    while_loop_invariant aco powf rnd (RouteInv aco)
      (routeInv_loop_body aco powf rnd hs (fun k => (hrnd k).2)) fuel _ w
      (routeInv_start aco calls hN) hw
  have hcur := hend h0
  rw [if_neg hcur] at hcnt
  have hcount : (w.tour ++ [0]).count 0 = w.tour.count 0 + 1 := by
    rw [List.count_append]
    simp
  have hpos : 1 ≤ w.tour.count 0 := by
    have hhead := hv.2.2.1
    cases ht : w.tour with
    | nil => simp [ht] at hhead
    | cons a t =>
      rw [ht] at hhead
      simp only [List.head?_cons, Option.some.injEq] at hhead
      subst hhead
      simp
  refine ⟨_, _, construct_solution_of_loop aco powf rnd fuel calls w hw hwlen,
    ?_, ?_, ?_, ?_, ?_, ?_, ?_⟩
  · exact chain_snoc _ w.tour w.current_node 0 hlast hchain (fun h => hcur h.1)
  · simp only [num_routes, hcount, List.length_append, List.length_singleton]
    omega
  · simp only [num_routes, hcount]
    omega
  · simp only [num_routes, hcount]
    omega
  · simp only [List.length_append, List.length_singleton]
    omega
  · simp only [List.length_append, List.length_singleton]
    omega
  · omega

/-- Witness of C18 on the four-node scenario with the draws 1/2. -/
theorem C18_number_of_tour_entries_witness :
    ∃ ant calls1, construct_solution scenario powf_int half_draws 6 0 = some (ant, calls1) ∧
      List.Chain' (fun a b => ¬ (a = 0 ∧ b = 0)) ant.tour ∧
      ant.tour.length = (scenario.num_nodes - 1) + num_routes ant.tour + 1 ∧
      1 ≤ num_routes ant.tour ∧ num_routes ant.tour ≤ scenario.num_nodes - 1 ∧
      scenario.num_nodes + 1 ≤ ant.tour.length ∧
      ant.tour.length ≤ 2 * scenario.num_nodes - 1 ∧
      2 * scenario.num_nodes - 1 ≤ MAX_NODES :=
  C18_number_of_tour_entries scenario powf_int half_draws 6 0 (by decide)
    scenario_scores (by decide)
    scenario_servable.2.1 scenario_servable.2.2.1 scenario_servable.2.2.2
    (fun _ => by norm_num [half_draws]) (by decide)

/-! ## The entries that `update_pheromones` leaves to evaporation -/

end MaxMinACO_CVRP
